import Mathlib

/-!
Verification of the bar-pipeline ingestion service (`src/bar_pipeline.py`)
against its natural-language specification.

The embedding is shallow: Python values appearing on the wire are modelled
by the inductive `Value` (JSON scalars; nested arrays/objects are not
needed by any claim and are omitted), Python `float`s are modelled as exact
rationals `ℚ`, and each function of the source file is translated into an
executable Lean definition of the same name (modulo Lean lexical rules).
Raised exceptions are modelled with `Except`: `.error` marks a Python
exception escaping the translated function, `.ok` a normal return.

Because Mathlib's `ℚ` arithmetic does not reduce inside the kernel, the
model uses its own rational operations (`qadd`, `qsub`, `qmul`, `qlt`,
`qfloor`, ...) built from `mkRat` / `.num` / `.den`, which do reduce; each
operation is proved equal to the corresponding Mathlib operation so proofs
can use the standard algebra.
-/

/-! ## Kernel-computable rational arithmetic -/

/-- Integer as a rational, by `mkRat`. -/
def qofInt (n : Int) : ℚ := mkRat n 1

/-- Kernel-computable addition on `ℚ`. -/
def qadd (a b : ℚ) : ℚ := mkRat (a.num * b.den + b.num * a.den) (a.den * b.den)

/-- Kernel-computable negation on `ℚ`. -/
def qneg (b : ℚ) : ℚ := mkRat (-b.num) b.den

/-- Kernel-computable subtraction on `ℚ`. -/
def qsub (a b : ℚ) : ℚ := qadd a (qneg b)

/-- Kernel-computable multiplication on `ℚ`. -/
def qmul (a b : ℚ) : ℚ := mkRat (a.num * b.num) (a.den * b.den)

/-- Kernel-computable strict comparison on `ℚ`. -/
def qlt (a b : ℚ) : Bool := decide (a.num * b.den < b.num * a.den)

/-- Kernel-computable floor on `ℚ` (Euclidean `Int` division by the
positive denominator is floor division). -/
def qfloor (q : ℚ) : Int := q.num / q.den

/-- Python's `round` for the nonnegative fractions the model feeds it
(rounding half up; `CPython` rounds half to even, a difference visible only
at exact half-microseconds, which no claim exercises). -/
def qround (q : ℚ) : Int := qfloor (qadd q (mkRat 1 2))

theorem qofInt_eq (n : Int) : qofInt n = (n : ℚ) := by
  rw [qofInt, Rat.mkRat_eq_divInt]
  simp [Rat.divInt_one]

theorem qadd_eq (a b : ℚ) : qadd a b = a + b := by
  rw [qadd, Rat.mkRat_eq_divInt]
  push_cast
  conv_rhs => rw [← Rat.num_divInt_den a, ← Rat.num_divInt_den b]
  rw [Rat.divInt_add_divInt _ _ (by exact_mod_cast a.den_nz) (by exact_mod_cast b.den_nz)]

theorem qneg_eq (b : ℚ) : qneg b = -b := by
  rw [qneg, Rat.mkRat_eq_divInt]
  conv_rhs => rw [← Rat.num_divInt_den b]
  rw [Rat.neg_divInt]

theorem qsub_eq (a b : ℚ) : qsub a b = a - b := by
  rw [qsub, qadd_eq, qneg_eq, sub_eq_add_neg]

theorem qmul_eq (a b : ℚ) : qmul a b = a * b := by
  rw [qmul, Rat.mkRat_eq_divInt]
  push_cast
  conv_rhs => rw [← Rat.num_divInt_den a, ← Rat.num_divInt_den b]
  rw [Rat.divInt_mul_divInt _ _ (by exact_mod_cast a.den_nz) (by exact_mod_cast b.den_nz)]

theorem qlt_iff (a b : ℚ) : qlt a b = true ↔ a < b := by
  rw [qlt, decide_eq_true_eq]
  have ha : (0:ℚ) < (a.den : ℚ) := by exact_mod_cast a.den_pos
  have hb : (0:ℚ) < (b.den : ℚ) := by exact_mod_cast b.den_pos
  constructor
  · intro h
    have h2 : (a.num : ℚ) * b.den < (b.num : ℚ) * a.den := by exact_mod_cast h
    have h3 := (div_lt_div_iff₀ ha hb).2 h2
    rwa [Rat.num_div_den, Rat.num_div_den] at h3
  · intro h
    have h2 : (a.num : ℚ) / a.den < (b.num : ℚ) / b.den := by
      rwa [Rat.num_div_den, Rat.num_div_den]
    have h3 := (div_lt_div_iff₀ ha hb).1 h2
    exact_mod_cast h3

theorem qfloor_eq (q : ℚ) : qfloor q = ⌊q⌋ := by rw [Rat.floor_def, qfloor]

theorem qround_eq (q : ℚ) : qround q = ⌊q + 1 / 2⌋ := by
  rw [qround, qfloor_eq, qadd_eq]
  norm_num

/-! ## Python character/string primitives

Modelled on `List Char`; `String` in this toolchain is a structure holding
exactly a `List Char`, so the two views convert by `String.data` / `String.mk`.
-/

/-- `str.upper` on one character (ASCII letters only; Python also maps
other Unicode scripts, which no claim exercises). -/
def upChar (c : Char) : Char :=
  if 97 ≤ c.toNat ∧ c.toNat ≤ 122 then Char.ofNat (c.toNat - 32) else c

/-- Whitespace as recognized by `str.strip` (ASCII subset). -/
def isWs (c : Char) : Bool := c.isWhitespace

/-- `str.upper`. -/
def upList (l : List Char) : List Char := l.map upChar

/-- `str.strip`: drop whitespace from both ends. -/
def stripList (l : List Char) : List Char :=
  ((l.dropWhile isWs).reverse.dropWhile isWs).reverse

/-- `str.upper` at `String` type. -/
def pyUpper (s : String) : String := ⟨upList s.data⟩

/-- `str.strip` at `String` type. -/
def pyStrip (s : String) : String := ⟨stripList s.data⟩

theorem upChar_toNat (c : Char) :
    (upChar c).toNat = if 97 ≤ c.toNat ∧ c.toNat ≤ 122 then c.toNat - 32 else c.toNat := by
  rw [upChar]
  split
  case isTrue h =>
    have hv : (c.toNat - 32).isValidChar := Or.inl (by omega)
    simp only [Char.ofNat, dif_pos hv]
    rfl
  case isFalse h => rfl

theorem upChar_not_lower (c : Char) (h : ¬ (97 ≤ c.toNat ∧ c.toNat ≤ 122)) :
    upChar c = c := by
  rw [upChar, if_neg h]

theorem upChar_upChar (c : Char) : upChar (upChar c) = upChar c := by
  by_cases h : 97 ≤ c.toNat ∧ c.toNat ≤ 122
  · apply upChar_not_lower
    rw [upChar_toNat, if_pos h]
    omega
  · rw [upChar_not_lower c h]
    exact upChar_not_lower c h

theorem upList_upList (l : List Char) : upList (upList l) = upList l := by
  simp only [upList, List.map_map]
  apply List.map_congr_left
  intro c _
  exact upChar_upChar c

/-- Characters with code points outside the whitespace set are not whitespace. -/
theorem isWs_eq_false_of_toNat (x : Char)
    (h : x.toNat ≠ 32 ∧ x.toNat ≠ 9 ∧ x.toNat ≠ 13 ∧ x.toNat ≠ 10) :
    isWs x = false := by
  have hA : x ≠ ' ' := fun hc => h.1 (by rw [hc]; rfl)
  have hB : x ≠ '\t' := fun hc => h.2.1 (by rw [hc]; rfl)
  have hC : x ≠ '\r' := fun hc => h.2.2.1 (by rw [hc]; rfl)
  have hD : x ≠ '\n' := fun hc => h.2.2.2 (by rw [hc]; rfl)
  simp [isWs, Char.isWhitespace, hA, hB, hC, hD]

/-- A character's whitespace status survives `upper`. -/
theorem isWs_upChar (c : Char) : isWs (upChar c) = isWs c := by
  by_cases h : 97 ≤ c.toNat ∧ c.toNat ≤ 122
  · have h1 : (upChar c).toNat = c.toNat - 32 := by rw [upChar_toNat, if_pos h]
    have h2 : isWs c = false := isWs_eq_false_of_toNat c (by omega)
    have h3 : isWs (upChar c) = false := isWs_eq_false_of_toNat _ (by omega)
    rw [h2, h3]
  · rw [upChar_not_lower c h]

theorem head?_dropWhile (p : Char → Bool) (l : List Char) :
    ∀ c, (List.dropWhile p l).head? = some c → p c = false := by
  induction l with
  | nil => intro c h; simp at h
  | cons a t ih =>
    intro c h
    rw [List.dropWhile_cons] at h
    by_cases hp : p a = true
    · rw [if_pos hp] at h; exact ih c h
    · rw [if_neg hp] at h
      simp at h
      rw [← h]
      simpa using hp

theorem getLast?_dropWhile (p : Char → Bool) (l : List Char) :
    List.dropWhile p l = [] ∨ (List.dropWhile p l).getLast? = l.getLast? := by
  induction l with
  | nil => left; rfl
  | cons a t ih =>
    rw [List.dropWhile_cons]
    by_cases hp : p a = true
    · rw [if_pos hp]
      rcases ih with h | h
      · left; exact h
      · rcases List.eq_nil_or_concat t with ht | ⟨t0, c0, ht⟩
        · subst ht; left; simp
        · right
          rw [h, ht, List.concat_eq_append, ← List.cons_append, List.getLast?_concat,
            List.getLast?_concat]
    · rw [if_neg hp]
      right
      rfl

theorem dropWhile_eq_self_of_head (p : Char → Bool) (l : List Char)
    (h : ∀ c, l.head? = some c → p c = false) : List.dropWhile p l = l := by
  cases l with
  | nil => rfl
  | cons a t =>
    rw [List.dropWhile_cons, if_neg]
    rw [h a rfl]
    simp

theorem stripList_head (l : List Char) :
    ∀ c, (stripList l).head? = some c → isWs c = false := by
  intro c h
  rw [stripList, List.head?_reverse] at h
  rcases getLast?_dropWhile isWs (List.dropWhile isWs l).reverse with h2 | h2
  · rw [h2] at h; simp at h
  · rw [h2, List.getLast?_reverse] at h
    exact head?_dropWhile isWs l c h

theorem stripList_last (l : List Char) :
    ∀ c, (stripList l).getLast? = some c → isWs c = false := by
  intro c h
  rw [stripList, List.getLast?_reverse] at h
  exact head?_dropWhile isWs _ c h

theorem stripList_stable (l : List Char)
    (h1 : ∀ c, l.head? = some c → isWs c = false)
    (h2 : ∀ c, l.getLast? = some c → isWs c = false) : stripList l = l := by
  rw [stripList, dropWhile_eq_self_of_head isWs l h1, dropWhile_eq_self_of_head,
    List.reverse_reverse]
  intro c h
  rw [List.head?_reverse] at h
  exact h2 c h

theorem stripList_idem (l : List Char) : stripList (stripList l) = stripList l :=
  stripList_stable _ (stripList_head l) (stripList_last l)

/-- `.strip().upper()` is stable under a second `.strip().upper()` pass. -/
theorem upList_stripList_stable (x : List Char) :
    upList (stripList (upList (stripList x))) = upList (stripList x) := by
  have hstrip : stripList (upList (stripList x)) = upList (stripList x) := by
    apply stripList_stable
    · intro c h
      rw [upList, List.head?_map] at h
      cases h0 : (stripList x).head? with
      | none => rw [h0] at h; simp at h
      | some c0 =>
        rw [h0] at h
        simp at h
        rw [← h, isWs_upChar]
        exact stripList_head x c0 h0
    · intro c h
      rw [upList, List.getLast?_map] at h
      cases h0 : (stripList x).getLast? with
      | none => rw [h0] at h; simp at h
      | some c0 =>
        rw [h0] at h
        simp at h
        rw [← h, isWs_upChar]
        exact stripList_last x c0 h0
  rw [hstrip, upList_upList]

/-! ## Python values on the wire

`Value` models the Python values a parsed JSON object line can hold in a
field, plus Python `None`: JSON `null`/`true`/`false`/number/string.
Nested arrays and objects are omitted from the model (no claim needs a
line carrying them). `float` is modelled as an exact rational.
-/

inductive Value where
  | null : Value
  | bool (b : Bool) : Value
  | num (q : ℚ) : Value
  | str (s : String) : Value
deriving DecidableEq

/-- Python truthiness of a `Value` (`None`, `0`, `0.0`, `""`, `False` are
falsy; everything else is truthy). -/
def truthy : Value → Bool
  | .null => false
  | .bool b => b
  | .num q => decide (q.num ≠ 0)
  | .str s => decide (s ≠ "")

/-- Python `a or b`: `a` if truthy, else `b` (the value itself, not a Bool). -/
def pyOr (a b : Value) : Value := if truthy a then a else b

/-- `obj.get(k)`, with Python's `None` for a missing key.  JSON objects with
a duplicated key keep the last occurrence, hence the reversed lookup. -/
def getF (obj : List (String × Value)) (k : String) : Value :=
  (obj.reverse.lookup k).getD Value.null

/-- Decimal digit list of `n`, most significant first (`Nat.toDigits`). -/
def natChars (n : Nat) : List Char := Nat.toDigits 10 n

/-- `str()` of an integer. -/
def intStr (i : Int) : String :=
  if i < 0 then ⟨'-' :: natChars i.natAbs⟩ else ⟨natChars i.natAbs⟩

/-- `str()` of a Python value, as used by `_normalize` on the symbol field.
For non-integral floats the exact CPython rendering differs; no claim
exercises `str()` of a non-string symbol. -/
def pyStr : Value → String
  | .null => "None"
  | .bool true => "True"
  | .bool false => "False"
  | .num q =>
    if q.den = 1 then intStr q.num ++ ".0"
    else intStr q.num ++ "/" ++ (⟨natChars q.den⟩ : String)
  | .str s => s

/-! ## `float(x)`: Python float coercion (`_fnum`'s try) -/

def isDig (c : Char) : Bool := c.isDigit

/-- Numeric value of a digit list, most significant first. -/
def natFromDigits (ds : List Char) : Nat :=
  ds.foldl (fun a c => 10 * a + (c.toNat - 48)) 0

/-- Python `float(string)` on the stripped character list: optional sign,
digits with optional decimal point, optional exponent.  (`inf`/`nan`
literals and `_` digit separators are not modelled; no claim uses them.) -/
def parseFloatChars (l : List Char) : Option ℚ :=
  let sl : Int × List Char :=
    match l with
    | '-' :: r => (-1, r)
    | '+' :: r => (1, r)
    | _ => (1, l)
  let d1 := sl.2.takeWhile isDig
  let r1 := sl.2.dropWhile isDig
  let dr : List Char × List Char :=
    match r1 with
    | '.' :: r => (r.takeWhile isDig, r.dropWhile isDig)
    | _ => ([], r1)
  if d1.isEmpty && dr.1.isEmpty then none
  else
    let mant : Int := sl.1 * natFromDigits (d1 ++ dr.1)
    let k : Nat := dr.1.length
    match dr.2 with
    | [] => some (mkRat mant (10 ^ k))
    | e :: r3 =>
      if e = 'e' ∨ e = 'E' then
        let se : Int × List Char :=
          match r3 with
          | '-' :: r => (-1, r)
          | '+' :: r => (1, r)
          | _ => (1, r3)
        let ed := se.2.takeWhile isDig
        let r5 := se.2.dropWhile isDig
        if ed.isEmpty || !r5.isEmpty then none
        else
          let ex : Int := se.1 * natFromDigits ed
          if 0 ≤ ex - k then some (mkRat (mant * 10 ^ (ex - k).toNat) 1)
          else some (mkRat mant (10 ^ ((k : Int) - ex).toNat))
      else none

/-- Python `float(string)` (which strips surrounding whitespace first). -/
def parseFloat (s : String) : Option ℚ := parseFloatChars (stripList s.data)

/-- `_fnum`: `float(x)` under a `try`, `None` on failure.  Python `bool` is
an `int` subclass, so `float(True) = 1.0`. -/
def _fnum : Value → Option ℚ
  | .num q => some q
  | .bool b => some (if b then 1 else 0)
  | .str s => parseFloat s
  | .null => none

/-! ## `datetime`: the slice of Python's datetime library used by `_to_iso`

`PyDateTime` is a naive UTC datetime.  `utcfromtimestamp`, `isoformat`,
`fromisoformat` and fixed-format `strptime` are modelled as executable
functions; Python's `MINYEAR = 1` / `MAXYEAR = 9999` window is enforced,
`utcfromtimestamp` returning `none` where Python raises
`OverflowError`/`ValueError` for an epoch outside that window.
Timezone-offset suffixes in `fromisoformat` are not modelled (no claim
exercises aware datetimes).
-/

structure PyDateTime where
  year : Nat
  month : Nat
  day : Nat
  hour : Nat
  minute : Nat
  second : Nat
  micro : Nat
deriving DecidableEq

/-- Gregorian leap-year test, as in Python's `calendar.isleap`. -/
def isLeapB (y : Nat) : Bool := y % 4 == 0 && (y % 100 != 0 || y % 400 == 0)

/-- Days in a month, parameterized by the leap flag. -/
def dimB (leap : Bool) (m : Nat) : Nat :=
  match m with
  | 1 => 31 | 2 => if leap then 29 else 28 | 3 => 31 | 4 => 30
  | 5 => 31 | 6 => 30 | 7 => 31 | 8 => 31
  | 9 => 30 | 10 => 31 | 11 => 30 | 12 => 31
  | _ => 0

def daysInYearB (leap : Bool) : Nat := if leap then 366 else 365

/-- The field ranges `datetime.datetime(...)` accepts. -/
def PyDateTime.Valid (dt : PyDateTime) : Prop :=
  1 ≤ dt.year ∧ dt.year ≤ 9999 ∧ 1 ≤ dt.month ∧ dt.month ≤ 12 ∧
  1 ≤ dt.day ∧ dt.day ≤ dimB (isLeapB dt.year) dt.month ∧
  dt.hour < 24 ∧ dt.minute < 60 ∧ dt.second < 60 ∧ dt.micro < 1000000

instance (dt : PyDateTime) : Decidable dt.Valid := by
  unfold PyDateTime.Valid
  infer_instance

/-- `datetime.datetime(y, mo, dd, hh, mi, ss, us)`: validates the ranges,
`none` for Python's `ValueError`. -/
def mkValid (y mo dd hh mi ss us : Nat) : Option PyDateTime :=
  if (⟨y, mo, dd, hh, mi, ss, us⟩ : PyDateTime).Valid then
    some ⟨y, mo, dd, hh, mi, ss, us⟩
  else none

/-- Month and day-of-month from a zero-based day-of-year. -/
def monthDayFromDoy (leap : Bool) (doy : Nat) : Nat × Nat :=
  match leap with
  | true =>
    if doy < 31 then (1, doy + 1)
    else if doy < 60 then (2, doy - 30)
    else if doy < 91 then (3, doy - 59)
    else if doy < 121 then (4, doy - 90)
    else if doy < 152 then (5, doy - 120)
    else if doy < 182 then (6, doy - 151)
    else if doy < 213 then (7, doy - 181)
    else if doy < 244 then (8, doy - 212)
    else if doy < 274 then (9, doy - 243)
    else if doy < 305 then (10, doy - 273)
    else if doy < 335 then (11, doy - 304)
    else (12, doy - 334)
  | false =>
    if doy < 31 then (1, doy + 1)
    else if doy < 59 then (2, doy - 30)
    else if doy < 90 then (3, doy - 58)
    else if doy < 120 then (4, doy - 89)
    else if doy < 151 then (5, doy - 119)
    else if doy < 181 then (6, doy - 150)
    else if doy < 212 then (7, doy - 180)
    else if doy < 243 then (8, doy - 211)
    else if doy < 273 then (9, doy - 242)
    else if doy < 304 then (10, doy - 272)
    else if doy < 334 then (11, doy - 303)
    else (12, doy - 333)

/-- Year and day-of-year from days since 0001-01-01, by fuelled iteration
starting at year `y`; `none` models the year running past 9999. -/
def yearFromDays : Nat → Nat → Nat → Option (Nat × Nat)
  | 0, y, n =>
    if n < daysInYearB (isLeapB y) then some (y, n) else none
  | fuel + 1, y, n =>
    if n < daysInYearB (isLeapB y) then some (y, n)
    else yearFromDays fuel (y + 1) (n - daysInYearB (isLeapB y))

/-- Days from 0001-01-01 to the Unix epoch 1970-01-01. -/
def epochDays : Nat := 719162

/-- Integer seconds and rounded microseconds of a timestamp, with the
carry Python applies when the fraction rounds up to a full second. -/
def usplit (q : ℚ) : Int × Nat :=
  let s0 : Int := qfloor q
  let us0 : Int := qround (qmul (qsub q (qofInt s0)) (mkRat 1000000 1))
  if 1000000 ≤ us0 then (s0 + 1, 0) else (s0, us0.toNat)

/-- Calendar date from days since 0001-01-01 plus the time of day. -/
def fromDayNum (n sod us : Nat) : Option PyDateTime :=
  match yearFromDays 9998 1 n with
  | none => none
  | some (y, doy) =>
    let md := monthDayFromDoy (isLeapB y) doy
    some ⟨y, md.1, md.2, sod / 3600, sod / 60 % 60, sod % 60, us⟩

/-- `datetime.utcfromtimestamp`: split the timestamp into integer seconds
and a microsecond remainder (rounded, with carry), then convert the day
count to a calendar date.  `none` where Python raises for an out-of-range
timestamp. -/
def utcfromtimestamp (q : ℚ) : Option PyDateTime :=
  let secs : Int := (usplit q).1
  let n : Int := secs / 86400 + epochDays
  if n < 0 then none
  else fromDayNum n.toNat (secs % 86400).toNat (usplit q).2

/-- The decimal digit character for `d < 10`. -/
def digitChar (d : Nat) : Char := Char.ofNat (48 + d)

/-- `n` printed in exactly `k` zero-padded decimal digits. -/
def pad (k n : Nat) : List Char :=
  (List.range k).map (fun i => digitChar (n / 10 ^ (k - 1 - i) % 10))

/-- `datetime.isoformat()`: `YYYY-MM-DDTHH:MM:SS[.ffffff]`, the fraction
printed exactly when the microsecond field is nonzero. -/
def isoChars (dt : PyDateTime) : List Char :=
  pad 4 dt.year ++ '-' :: pad 2 dt.month ++ '-' :: pad 2 dt.day ++
  'T' :: pad 2 dt.hour ++ ':' :: pad 2 dt.minute ++ ':' :: pad 2 dt.second ++
  (if dt.micro = 0 then [] else '.' :: pad 6 dt.micro)

def isoformat (dt : PyDateTime) : String := ⟨isoChars dt⟩

/-- Read exactly `k` decimal digits, most significant first. -/
def readDigits : Nat → Nat → List Char → Option (Nat × List Char)
  | 0, acc, cs => some (acc, cs)
  | _ + 1, _, [] => none
  | k + 1, acc, c :: cs =>
    if isDig c then readDigits k (10 * acc + (c.toNat - 48)) cs else none

def expectChar (c : Char) : List Char → Option (List Char)
  | [] => none
  | x :: r => if x = c then some r else none

/-- The seven numeric fields an ISO-format string denotes, before range
validation. -/
def isoFields (cs : List Char) :
    Option (Nat × Nat × Nat × Nat × Nat × Nat × Nat) := do
  let (y, cs) ← readDigits 4 0 cs
  let cs ← expectChar '-' cs
  let (mo, cs) ← readDigits 2 0 cs
  let cs ← expectChar '-' cs
  let (dd, cs) ← readDigits 2 0 cs
  match cs with
  | [] => some (y, mo, dd, 0, 0, 0, 0)
  | _sep :: cs => do
    let (hh, cs) ← readDigits 2 0 cs
    match cs with
    | [] => some (y, mo, dd, hh, 0, 0, 0)
    | ':' :: cs => do
      let (mi, cs) ← readDigits 2 0 cs
      match cs with
      | [] => some (y, mo, dd, hh, mi, 0, 0)
      | ':' :: cs => do
        let (ss, cs) ← readDigits 2 0 cs
        match cs with
        | [] => some (y, mo, dd, hh, mi, ss, 0)
        | '.' :: cs =>
          match readDigits 6 0 cs with
          | some (us, []) => some (y, mo, dd, hh, mi, ss, us)
          | _ =>
            match readDigits 3 0 cs with
            | some (ms, []) => some (y, mo, dd, hh, mi, ss, ms * 1000)
            | _ => none
        | _ => none
      | _ => none
    | _ => none

/-- `datetime.fromisoformat` on characters: `YYYY-MM-DD` then optionally a
single separator character and `HH[:MM[:SS[.fff | .ffffff]]]`; range
validation as in the datetime constructor. -/
def fromisoChars (cs : List Char) : Option PyDateTime :=
  match isoFields cs with
  | some (y, mo, dd, hh, mi, ss, us) => mkValid y mo dd hh mi ss us
  | none => none

/-- The fields matched by one of the four fixed fallback formats: four year
digits, an optional date separator, and a `mid` character before
`HH:MM:SS`. -/
def strptimeFields (dateSep : Option Char) (mid : Char) (cs : List Char) :
    Option (Nat × Nat × Nat × Nat × Nat × Nat) := do
  let (y, cs) ← readDigits 4 0 cs
  let cs ← match dateSep with | some c => expectChar c cs | none => pure cs
  let (mo, cs) ← readDigits 2 0 cs
  let cs ← match dateSep with | some c => expectChar c cs | none => pure cs
  let (dd, cs) ← readDigits 2 0 cs
  let cs ← expectChar mid cs
  let (hh, cs) ← readDigits 2 0 cs
  let cs ← expectChar ':' cs
  let (mi, cs) ← readDigits 2 0 cs
  let cs ← expectChar ':' cs
  let (ss, cs) ← readDigits 2 0 cs
  if cs.isEmpty then some (y, mo, dd, hh, mi, ss) else none

/-- `datetime.strptime` against one fallback format (validation as in the
datetime constructor; `%S` etc. produce a naive datetime, microsecond 0). -/
def strptimeFmt (dateSep : Option Char) (mid : Char) (cs : List Char) :
    Option PyDateTime :=
  match strptimeFields dateSep mid cs with
  | some (y, mo, dd, hh, mi, ss) => mkValid y mo dd hh mi ss 0
  | none => none

/-- `s.replace("Z", "").replace("z", "")`: removes every Z/z. -/
def stripZchars (l : List Char) : List Char :=
  l.filter (fun c => !(c = 'Z' || c = 'z'))

/-- The string branch of `_to_iso`: ISO parse of the Z-stripped string,
then the four `strptime` fallback formats on the original string. -/
def _to_iso_str (s : String) : Option String :=
  match fromisoChars (stripZchars s.data) with
  | some dt => some (isoformat dt ++ "Z")
  | none =>
    match strptimeFmt (some '-') ' ' s.data with
    | some dt => some (isoformat dt ++ "Z")
    | none =>
      match strptimeFmt (some '-') 'T' s.data with
      | some dt => some (isoformat dt ++ "Z")
      | none =>
        match strptimeFmt (some '/') ' ' s.data with
        | some dt => some (isoformat dt ++ "Z")
        | none =>
          match strptimeFmt none ' ' s.data with
          | some dt => some (isoformat dt ++ "Z")
          | none => none

/-- The numeric branch of `_to_iso`: `datetime.utcfromtimestamp(float(ts))`
with no surrounding `try`, so the `OverflowError`/`ValueError` of an
out-of-range timestamp escapes as `.error`. -/
def isoOfTimestamp (q : ℚ) : Except String (Option String) :=
  match utcfromtimestamp q with
  | some dt => .ok (some (isoformat dt ++ "Z"))
  | none => .error "OverflowError"

/-- `_to_iso`: `None`/`""` yield no timestamp; `int`/`float` (and `bool`,
an `int` subclass) go through the unguarded epoch conversion, whose
`OverflowError` escapes as `.error`; strings are parsed, every parse
failure caught, `None` on exhaustion. -/
def _to_iso : Value → Except String (Option String)
  | .null => .ok none
  | .bool b => isoOfTimestamp (if b then 1 else 0) -- float(True) = 1.0
  | .num q => isoOfTimestamp q
  | .str s =>
    if s = "" then .ok none else .ok (_to_iso_str s)

/-! ## Digit and parser lemmas -/

theorem digitChar_toNat (d : Nat) (h : d < 10) : (digitChar d).toNat = 48 + d := by
  interval_cases d <;> decide

theorem isDig_digitChar (d : Nat) (h : d < 10) : isDig (digitChar d) = true := by
  interval_cases d <;> decide

theorem digit_mod_pow (n k j : Nat) (h : j < k) :
    n / 10 ^ j % 10 = n % 10 ^ k / 10 ^ j % 10 := by
  conv_lhs => rw [← Nat.div_add_mod n (10 ^ k)]
  have hk : 10 ^ k = 10 ^ j * 10 ^ (k - j) := by
    rw [← pow_add]
    congr 1
    omega
  rw [hk, mul_assoc, Nat.mul_add_div (Nat.pos_pow_of_pos j (by norm_num))]
  have hkj : 10 ^ (k - j) = 10 * 10 ^ (k - j - 1) := by
    rw [← pow_succ']
    congr 1
    omega
  rw [hkj, mul_assoc, Nat.mul_add_mod]

theorem pad_succ (k n : Nat) :
    pad (k + 1) n = digitChar (n / 10 ^ k % 10) :: pad k (n % 10 ^ k) := by
  unfold pad
  rw [List.range_succ_eq_map, List.map_cons, List.map_map]
  congr 1
  · apply List.map_congr_left
    intro a ha
    rw [List.mem_range] at ha
    show digitChar (n / 10 ^ (k - (a + 1)) % 10) = digitChar (n % 10 ^ k / 10 ^ (k - 1 - a) % 10)
    have he : k - (a + 1) = k - 1 - a := by omega
    rw [he]
    exact congrArg digitChar (digit_mod_pow n k (k - 1 - a) (by omega))

theorem readDigits_pad (k : Nat) : ∀ acc n rest, n < 10 ^ k →
    readDigits k acc (pad k n ++ rest) = some (acc * 10 ^ k + n, rest) := by
  induction k with
  | zero =>
    intro acc n rest h
    have : n = 0 := by omega
    subst this
    simp [pad, readDigits]
  | succ k ih =>
    intro acc n rest h
    rw [pad_succ, List.cons_append, readDigits,
      if_pos (isDig_digitChar _ (Nat.mod_lt _ (by norm_num))),
      digitChar_toNat _ (Nat.mod_lt _ (by norm_num))]
    have h48 : 10 * acc + (48 + n / 10 ^ k % 10 - 48) = 10 * acc + n / 10 ^ k % 10 := by
      omega
    rw [h48, ih _ _ rest (Nat.mod_lt _ (Nat.pos_pow_of_pos k (by norm_num)))]
    have hdiv : n / 10 ^ k < 10 := by
      rw [Nat.div_lt_iff_lt_mul (Nat.pos_pow_of_pos k (by norm_num))]
      rw [pow_succ] at h
      nlinarith
    rw [Nat.mod_eq_of_lt hdiv]
    congr 1
    rw [pow_succ]
    conv_rhs => rw [← Nat.div_add_mod n (10 ^ k)]
    ring_nf

theorem readDigits_pad0 (k n : Nat) (rest : List Char) (h : n < 10 ^ k) :
    readDigits k 0 (pad k n ++ rest) = some (n, rest) := by
  rw [readDigits_pad k 0 n rest h]
  simp

theorem expectChar_cons (c : Char) (r : List Char) : expectChar c (c :: r) = some r := by
  simp [expectChar]

theorem mkValid_valid (y mo dd hh mi ss us : Nat) (dt : PyDateTime)
    (h : mkValid y mo dd hh mi ss us = some dt) : dt.Valid := by
  unfold mkValid at h
  split at h
  · cases h
    assumption
  · cases h

theorem mkValid_of_valid (dt : PyDateTime) (h : dt.Valid) :
    mkValid dt.year dt.month dt.day dt.hour dt.minute dt.second dt.micro = some dt := by
  unfold mkValid
  rw [if_pos h]

theorem dimB_le (leap : Bool) (m : Nat) : dimB leap m ≤ 31 := by
  unfold dimB
  split <;> (try split) <;> omega

/-! ## Parser/printer round trip -/

set_option maxHeartbeats 2000000 in
theorem isoFields_iso (dt : PyDateTime) (h : dt.Valid) :
    isoFields (isoChars dt) =
      some (dt.year, dt.month, dt.day, dt.hour, dt.minute, dt.second, dt.micro) := by
  obtain ⟨h1, h2, h3, h4, h5, h6, h7, h8, h9, h10⟩ := h
  have hy : dt.year < 10 ^ 4 := lt_of_le_of_lt h2 (by norm_num)
  have hmo : dt.month < 10 ^ 2 := lt_of_le_of_lt h4 (by norm_num)
  have hdd : dt.day < 10 ^ 2 := lt_of_le_of_lt (h6.trans (dimB_le _ _)) (by norm_num)
  have hhh : dt.hour < 10 ^ 2 := lt_trans h7 (by norm_num)
  have hmi : dt.minute < 10 ^ 2 := lt_trans h8 (by norm_num)
  have hss : dt.second < 10 ^ 2 := lt_trans h9 (by norm_num)
  rw [isoChars]
  simp only [List.cons_append, List.append_assoc]
  by_cases hus : dt.micro = 0
  · rw [if_pos hus]
    rw [isoFields, readDigits_pad0 4 _ _ hy]
    simp only [Option.bind_eq_bind, Option.some_bind]
    rw [expectChar_cons]
    simp only [Option.some_bind]
    rw [readDigits_pad0 2 _ _ hmo]
    simp only [Option.some_bind]
    rw [expectChar_cons]
    simp only [Option.some_bind]
    rw [readDigits_pad0 2 _ _ hdd]
    simp only [Option.some_bind]
    rw [readDigits_pad0 2 _ _ hhh]
    simp only [Option.some_bind]
    rw [readDigits_pad0 2 _ _ hmi]
    simp only [Option.some_bind]
    rw [← List.append_nil (pad 2 dt.second ++ [])]
    simp only [List.append_nil]
    rw [← List.append_nil (pad 2 dt.second), readDigits_pad0 2 _ _ hss]
    simp [hus]
  · rw [if_neg hus]
    rw [isoFields, readDigits_pad0 4 _ _ hy]
    simp only [Option.bind_eq_bind, Option.some_bind]
    rw [expectChar_cons]
    simp only [Option.some_bind]
    rw [readDigits_pad0 2 _ _ hmo]
    simp only [Option.some_bind]
    rw [expectChar_cons]
    simp only [Option.some_bind]
    rw [readDigits_pad0 2 _ _ hdd]
    simp only [Option.some_bind]
    rw [readDigits_pad0 2 _ _ hhh]
    simp only [Option.some_bind]
    rw [readDigits_pad0 2 _ _ hmi]
    simp only [Option.some_bind]
    rw [readDigits_pad0 2 _ _ hss]
    simp only [Option.some_bind]
    rw [← List.append_nil (pad 6 dt.micro), readDigits_pad0 6 _ _ h10]

theorem fromisoChars_iso (dt : PyDateTime) (h : dt.Valid) :
    fromisoChars (isoChars dt) = some dt := by
  rw [fromisoChars, isoFields_iso dt h]
  exact mkValid_of_valid dt h

/-! ## Validity of every datetime the model constructs -/

/-- The month/day decomposition is well-formed for every day of the year. -/
def mdOk (leap : Bool) (doy : Nat) : Prop :=
  1 ≤ (monthDayFromDoy leap doy).1 ∧ (monthDayFromDoy leap doy).1 ≤ 12 ∧
  1 ≤ (monthDayFromDoy leap doy).2 ∧
  (monthDayFromDoy leap doy).2 ≤ dimB leap (monthDayFromDoy leap doy).1

instance (leap : Bool) (doy : Nat) : Decidable (mdOk leap doy) := by
  unfold mdOk
  infer_instance

set_option maxRecDepth 40000 in
theorem mdOk_true : ∀ doy, doy < 366 → mdOk true doy := by decide

set_option maxRecDepth 40000 in
theorem mdOk_false : ∀ doy, doy < 365 → mdOk false doy := by decide

theorem yearFromDays_valid : ∀ fuel y n y' doy,
    yearFromDays fuel y n = some (y', doy) →
    y ≤ y' ∧ y' ≤ y + fuel ∧ doy < daysInYearB (isLeapB y') := by
  intro fuel
  induction fuel with
  | zero =>
    intro y n y' doy h
    rw [yearFromDays] at h
    split at h
    · cases h
      refine ⟨le_rfl, by omega, by assumption⟩
    · cases h
  | succ fuel ih =>
    intro y n y' doy h
    rw [yearFromDays] at h
    split at h
    · cases h
      refine ⟨le_rfl, by omega, by assumption⟩
    · have := ih (y + 1) _ y' doy h
      refine ⟨by omega, by omega, this.2.2⟩

theorem fromDayNum_valid (n sod us : Nat) (dt : PyDateTime)
    (hsod : sod < 86400) (hus : us < 1000000)
    (h : fromDayNum n sod us = some dt) : dt.Valid := by
  unfold fromDayNum at h
  cases hY : yearFromDays 9998 1 n with
  | none => rw [hY] at h; cases h
  | some p =>
    obtain ⟨y, doy⟩ := p
    rw [hY] at h
    have hyv := yearFromDays_valid 9998 1 n y doy hY
    have hmd : mdOk (isLeapB y) doy := by
      cases hL : isLeapB y with
      | true =>
        apply mdOk_true
        have := hyv.2.2
        rw [hL] at this
        simpa [daysInYearB] using this
      | false =>
        apply mdOk_false
        have := hyv.2.2
        rw [hL] at this
        simpa [daysInYearB] using this
    simp only [Option.some_inj] at h
    subst h
    obtain ⟨m1, m2, m3, m4⟩ := hmd
    unfold PyDateTime.Valid
    dsimp only
    refine ⟨by omega, by omega, m1, m2, m3, m4, by omega, by omega, by omega, by omega⟩

theorem usplit_us_lt (q : ℚ) : (usplit q).2 < 1000000 := by
  unfold usplit
  dsimp only
  split
  · simp
  · rename_i hlt
    simp only []
    omega

theorem utcfromtimestamp_valid (q : ℚ) (dt : PyDateTime)
    (h : utcfromtimestamp q = some dt) : dt.Valid := by
  unfold utcfromtimestamp at h
  dsimp only at h
  split at h
  · cases h
  · refine fromDayNum_valid _ _ _ _ ?_ (usplit_us_lt q) h
    have h1 : 0 ≤ (usplit q).1 % 86400 := Int.emod_nonneg _ (by norm_num)
    have h2 : (usplit q).1 % 86400 < 86400 := Int.emod_lt_of_pos _ (by norm_num)
    omega

/-! ## The shape of every timestamp `_to_iso` produces -/

theorem pad_mem (k n : Nat) (c : Char) (hc : c ∈ pad k n) :
    48 ≤ c.toNat ∧ c.toNat ≤ 57 := by
  unfold pad at hc
  rw [List.mem_map] at hc
  obtain ⟨i, _, rfl⟩ := hc
  rw [digitChar_toNat _ (Nat.mod_lt _ (by norm_num))]
  have := Nat.mod_lt (n / 10 ^ (k - 1 - i)) (show 0 < 10 by norm_num)
  omega

theorem isoChars_mem (dt : PyDateTime) (c : Char) (hc : c ∈ isoChars dt) :
    c.toNat ≠ 90 ∧ c.toNat ≠ 122 := by
  have hsp : ('-' : Char).toNat = 45 := rfl
  have hT : ('T' : Char).toNat = 84 := rfl
  have hco : (':' : Char).toNat = 58 := rfl
  have hdot : ('.' : Char).toNat = 46 := rfl
  unfold isoChars at hc
  by_cases hm : dt.micro = 0
  · rw [if_pos hm] at hc
    simp only [List.append_nil, List.cons_append, List.append_assoc,
      List.mem_append, List.mem_cons] at hc
    rcases hc with h | h | h | h | h | h | h | h | h | h | h <;>
      first
        | (have hp := pad_mem _ _ _ h; omega)
        | (subst h; omega)
  · rw [if_neg hm] at hc
    simp only [List.cons_append, List.append_assoc,
      List.mem_append, List.mem_cons] at hc
    rcases hc with h | h | h | h | h | h | h | h | h | h | h | h | h <;>
      first
        | (have hp := pad_mem _ _ _ h; omega)
        | (subst h; omega)

theorem stripZchars_iso (dt : PyDateTime) :
    stripZchars (isoChars dt ++ ['Z']) = isoChars dt := by
  rw [stripZchars, List.filter_append]
  have h2 : List.filter (fun c => !(c = 'Z' || c = 'z')) ['Z'] = [] := rfl
  rw [h2, List.append_nil]
  apply List.filter_eq_self.2
  intro c hc
  have hm := isoChars_mem dt c hc
  have hz : c ≠ 'Z' := fun he => hm.1 (by rw [he]; rfl)
  have hz2 : c ≠ 'z' := fun he => hm.2 (by rw [he]; rfl)
  simp [hz, hz2]

theorem iso_ne_empty (dt : PyDateTime) : isoformat dt ++ "Z" ≠ "" := by
  intro h
  have h2 : (isoformat dt ++ "Z").data = ("" : String).data := by rw [h]
  rw [String.data_append] at h2
  simp [isoformat] at h2

theorem fromisoChars_valid (cs : List Char) (dt : PyDateTime)
    (h : fromisoChars cs = some dt) : dt.Valid := by
  unfold fromisoChars at h
  cases h2 : isoFields cs with
  | none => rw [h2] at h; cases h
  | some t =>
    obtain ⟨y, mo, dd, hh, mi, ss, us⟩ := t
    rw [h2] at h
    exact mkValid_valid _ _ _ _ _ _ _ _ h

theorem strptimeFmt_valid (dateSep : Option Char) (mid : Char) (cs : List Char)
    (dt : PyDateTime) (h : strptimeFmt dateSep mid cs = some dt) : dt.Valid := by
  unfold strptimeFmt at h
  cases h2 : strptimeFields dateSep mid cs with
  | none => rw [h2] at h; cases h
  | some t =>
    obtain ⟨y, mo, dd, hh, mi, ss⟩ := t
    rw [h2] at h
    exact mkValid_valid _ _ _ _ _ _ _ _ h

/-- Every timestamp the string branch of `_to_iso` produces is the ISO
rendering of a valid datetime, with the trailing Z. -/
theorem to_iso_str_shape (s t : String) (h : _to_iso_str s = some t) :
    ∃ dt, dt.Valid ∧ t = isoformat dt ++ "Z" := by
  unfold _to_iso_str at h
  cases h1 : fromisoChars (stripZchars s.data) with
  | some dt =>
    rw [h1] at h
    exact ⟨dt, fromisoChars_valid _ _ h1, by cases h; rfl⟩
  | none =>
    rw [h1] at h
    cases h2 : strptimeFmt (some '-') ' ' s.data with
    | some dt =>
      rw [h2] at h
      exact ⟨dt, strptimeFmt_valid _ _ _ _ h2, by cases h; rfl⟩
    | none =>
      rw [h2] at h
      cases h3 : strptimeFmt (some '-') 'T' s.data with
      | some dt =>
        rw [h3] at h
        exact ⟨dt, strptimeFmt_valid _ _ _ _ h3, by cases h; rfl⟩
      | none =>
        rw [h3] at h
        cases h4 : strptimeFmt (some '/') ' ' s.data with
        | some dt =>
          rw [h4] at h
          exact ⟨dt, strptimeFmt_valid _ _ _ _ h4, by cases h; rfl⟩
        | none =>
          rw [h4] at h
          cases h5 : strptimeFmt none ' ' s.data with
          | some dt =>
            rw [h5] at h
            exact ⟨dt, strptimeFmt_valid _ _ _ _ h5, by cases h; rfl⟩
          | none => rw [h5] at h; cases h

theorem isoOfTimestamp_shape (q : ℚ) (s : String)
    (h : isoOfTimestamp q = .ok (some s)) :
    ∃ dt, dt.Valid ∧ s = isoformat dt ++ "Z" := by
  unfold isoOfTimestamp at h
  cases h2 : utcfromtimestamp q with
  | none => rw [h2] at h; cases h
  | some dt =>
    rw [h2] at h
    exact ⟨dt, utcfromtimestamp_valid _ _ h2, by cases h; rfl⟩

/-- Every timestamp `_to_iso` returns successfully is the ISO rendering of
a valid datetime followed by `Z`. -/
theorem to_iso_shape (v : Value) (s : String) (h : _to_iso v = .ok (some s)) :
    ∃ dt, dt.Valid ∧ s = isoformat dt ++ "Z" := by
  cases v with
  | null => simp [_to_iso] at h
  | bool b => exact isoOfTimestamp_shape _ _ h
  | num q => exact isoOfTimestamp_shape _ _ h
  | str s0 =>
    unfold _to_iso at h
    dsimp only at h
    split at h
    · simp at h
    · simp only [Except.ok.injEq] at h
      exact to_iso_str_shape s0 s h

/-- Feeding an `_to_iso` output back through `_to_iso` reproduces it. -/
theorem to_iso_round (dt : PyDateTime) (hv : dt.Valid) :
    _to_iso (.str (isoformat dt ++ "Z")) = .ok (some (isoformat dt ++ "Z")) := by
  unfold _to_iso
  dsimp only
  rw [if_neg (iso_ne_empty dt)]
  unfold _to_iso_str
  have hdata : (isoformat dt ++ "Z").data = isoChars dt ++ ['Z'] := by
    rw [String.data_append]
    rfl
  rw [hdata, stripZchars_iso, fromisoChars_iso dt hv]

/-! ## The canonical bar record and `_normalize` -/

/-- The canonical bar record `_normalize` produces.  `open` is a Lean
keyword, hence the guillemets.  `regime`/`capsule_id` hold whatever truthy
value the input carried (`x or None`), `delta_phi` the coerced float. -/
structure Bar where
  timestamp : String
  symbol : String
  «open» : ℚ
  high : ℚ
  low : ℚ
  close : ℚ
  volume : ℚ
  delta_phi : Option ℚ
  regime : Option Value
  capsule_id : Option Value
deriving DecidableEq

/-- `obj.get("timestamp") or obj.get("time") or obj.get("date") or
obj.get("datetime")`. -/
def resolveTs (obj : List (String × Value)) : Value :=
  pyOr (getF obj "timestamp") (pyOr (getF obj "time") (pyOr (getF obj "date") (getF obj "datetime")))

/-- `obj.get("symbol") or obj.get("sym") or ""`. -/
def resolveSym (obj : List (String × Value)) : Value :=
  pyOr (getF obj "symbol") (pyOr (getF obj "sym") (.str ""))

/-- `_normalize`: timestamp coalescing and conversion (whose numeric-path
exception propagates), symbol strip/uppercase, float coercion of the five
numeric fields and `delta_phi`, truthy-or-None for `regime`/`capsule_id`,
then the required-field check `out[k] in (None, "")`. -/
def _normalize (obj : List (String × Value)) : Except String (Option Bar) :=
  match _to_iso (resolveTs obj) with
  | .error e => .error e
  | .ok tsOpt =>
    let symbol := pyUpper (pyStrip (pyStr (resolveSym obj)))
    let o := _fnum (getF obj "open")
    let hi := _fnum (getF obj "high")
    let lo := _fnum (getF obj "low")
    let cl := _fnum (getF obj "close")
    let vo := _fnum (getF obj "volume")
    let dphi := _fnum (getF obj "delta_phi")
    let reg := if truthy (getF obj "regime") then some (getF obj "regime") else none
    let cap := if truthy (getF obj "capsule_id") then some (getF obj "capsule_id") else none
    match tsOpt, o, hi, lo, cl, vo with
    | some ts, some o, some hi, some lo, some cl, some vo =>
      if ts = "" ∨ symbol = "" then .ok none
      else .ok (some ⟨ts, symbol, o, hi, lo, cl, vo, dphi, reg, cap⟩)
    | _, _, _, _, _, _ => .ok none

/-! ## Input lines and `_parse_line`

A physical line is modelled by `Line`: `Line.json obj` stands for a line
that (after stripping) starts with `{`, ends with `}` and parses as a JSON
object — `json.loads` is modelled as the identity on the object, so the
constructor carries the parsed key/value pairs directly.  `Line.raw s`
stands for every other line; if such a line is brace-delimited it is by
construction one on which `json.loads` fails, which `_parse_line` answers
with no record. -/

inductive Line where
  | json (obj : List (String × Value)) : Line
  | raw (s : String) : Line
deriving DecidableEq

def keysGuess : List String :=
  ["timestamp", "symbol", "open", "high", "low", "close", "volume"]

/-- The CSV branch's positional dict:
`{k: parts[i] if i < len(parts) else None}`. -/
def mkCsvObj (parts : List String) : List (String × Value) :=
  keysGuess.enum.map fun ik =>
    (ik.2, match parts.get? ik.1 with | some p => Value.str p | none => Value.null)

/-- `line.split(",")` (also `csv.reader` on a quote-free line). RFC-4180
quote handling is not modelled; no claim exercises quoted fields. -/
def splitComma : List Char → List (List Char)
  | [] => [[]]
  | c :: cs =>
    let r := splitComma cs
    if c = ',' then [] :: r
    else
      match r with
      | [] => [[c]]
      | h :: t => (c :: h) :: t

def startsBrace (l : List Char) : Bool :=
  match l with
  | c :: _ => c = '\x7b'
  | [] => false

def endsBrace (l : List Char) : Bool :=
  match l.getLast? with
  | some c => c = '\x7d'
  | none => false

/-- `_parse_line`: strip; empty lines yield no record; brace-delimited
lines go through `json.loads` (a `Line.raw` with braces is by the `Line`
contract one whose parse fails: no record); anything else is split on
commas and normalized positionally. -/
def _parse_line (l : Line) : Except String (Option Bar) :=
  match l with
  | .json obj => _normalize obj
  | .raw s =>
    let t := stripList s.data
    if t.isEmpty then .ok none
    else if startsBrace t && endsBrace t then .ok none
    else _normalize (mkCsvObj ((splitComma t).map (fun cl => (⟨cl⟩ : String))))

/-- The object `json.loads` reads back from `json.dumps(row,
separators=(",", ":"))` as emitted by `StdoutSink.write`: the record's own
fields (CPython float repr round-trips exactly, so the numeric fields
survive unchanged). -/
def recordObj (r : Bar) : List (String × Value) :=
  [("timestamp", .str r.timestamp), ("symbol", .str r.symbol),
   ("open", .num r.«open»), ("high", .num r.high), ("low", .num r.low),
   ("close", .num r.close), ("volume", .num r.volume),
   ("delta_phi", match r.delta_phi with | some q => .num q | none => .null),
   ("regime", r.regime.getD .null),
   ("capsule_id", r.capsule_id.getD .null)]

/-- The single line `StdoutSink.write` prints for a record: the compact
canonical object encoding (which starts with `{` and ends with `}`). -/
def stdoutLine (r : Bar) : Line := .json (recordObj r)

/-! ## Inverting a successful `_normalize` -/

theorem pyUpper_pyStrip_stable (s : String) :
    pyUpper (pyStrip (pyUpper (pyStrip s))) = pyUpper (pyStrip s) := by
  show (⟨upList (stripList (upList (stripList s.data)))⟩ : String) = ⟨upList (stripList s.data)⟩
  exact congrArg String.mk (upList_stripList_stable s.data)

theorem normalize_some_inv (obj : List (String × Value)) (r : Bar)
    (h : _normalize obj = .ok (some r)) :
    _to_iso (resolveTs obj) = .ok (some r.timestamp) ∧
    r.timestamp ≠ "" ∧
    r.symbol = pyUpper (pyStrip (pyStr (resolveSym obj))) ∧
    r.symbol ≠ "" ∧
    _fnum (getF obj "open") = some r.«open» ∧
    _fnum (getF obj "high") = some r.high ∧
    _fnum (getF obj "low") = some r.low ∧
    _fnum (getF obj "close") = some r.close ∧
    _fnum (getF obj "volume") = some r.volume ∧
    r.delta_phi = _fnum (getF obj "delta_phi") ∧
    r.regime = (if truthy (getF obj "regime") then some (getF obj "regime") else none) ∧
    r.capsule_id = (if truthy (getF obj "capsule_id") then some (getF obj "capsule_id") else none) := by
  unfold _normalize at h
  cases hts : _to_iso (resolveTs obj) with
  | error e => rw [hts] at h; cases h
  | ok tsOpt =>
    rw [hts] at h
    dsimp only at h
    cases tsOpt with
    | none => dsimp only at h; exact absurd h (by simp)
    | some ts =>
      cases hO : _fnum (getF obj "open") with
      | none => rw [hO] at h; dsimp only at h; exact absurd h (by simp)
      | some o =>
        rw [hO] at h
        cases hHi : _fnum (getF obj "high") with
        | none => rw [hHi] at h; dsimp only at h; exact absurd h (by simp)
        | some hi =>
          rw [hHi] at h
          cases hLo : _fnum (getF obj "low") with
          | none => rw [hLo] at h; dsimp only at h; exact absurd h (by simp)
          | some lo =>
            rw [hLo] at h
            cases hCl : _fnum (getF obj "close") with
            | none => rw [hCl] at h; dsimp only at h; exact absurd h (by simp)
            | some cl =>
              rw [hCl] at h
              cases hVo : _fnum (getF obj "volume") with
              | none => rw [hVo] at h; dsimp only at h; exact absurd h (by simp)
              | some vo =>
                rw [hVo] at h
                dsimp only at h
                split at h
                · exact absurd h (by simp)
                · rename_i hcond
                  rw [not_or] at hcond
                  have hr : (⟨ts, pyUpper (pyStrip (pyStr (resolveSym obj))), o, hi, lo, cl, vo,
                      _fnum (getF obj "delta_phi"),
                      (if truthy (getF obj "regime") then some (getF obj "regime") else none),
                      (if truthy (getF obj "capsule_id") then some (getF obj "capsule_id")
                       else none)⟩ : Bar) = r := by
                    injection h with h2
                    injection h2
                  subst hr
                  exact ⟨rfl, hcond.1, rfl, hcond.2, rfl, rfl, rfl, rfl, rfl, rfl, rfl, rfl⟩

theorem truthy_str_of_ne (s : String) (h : s ≠ "") : truthy (.str s) = true := by
  simp [truthy, h]

/-- Re-normalizing the canonical object encoding of a normalized record
reproduces the record. -/
theorem normalize_recordObj (obj : List (String × Value)) (r : Bar)
    (h : _normalize obj = .ok (some r)) :
    _normalize (recordObj r) = .ok (some r) := by
  obtain ⟨hts, htne, hsym, hsne, _, _, _, _, _, hd, hreg, hcap⟩ := normalize_some_inv obj r h
  have gts : resolveTs (recordObj r) = .str r.timestamp := by
    show pyOr (.str r.timestamp) _ = .str r.timestamp
    rw [pyOr, if_pos (truthy_str_of_ne _ htne)]
  have gsym : resolveSym (recordObj r) = .str r.symbol := by
    show pyOr (.str r.symbol) _ = .str r.symbol
    rw [pyOr, if_pos (truthy_str_of_ne _ hsne)]
  obtain ⟨dt, hdv, hdteq⟩ := to_iso_shape _ _ hts
  have hts2 : _to_iso (resolveTs (recordObj r)) = .ok (some r.timestamp) := by
    rw [gts, hdteq]
    exact to_iso_round dt hdv
  have hsym2 : pyUpper (pyStrip (pyStr (resolveSym (recordObj r)))) = r.symbol := by
    rw [gsym]
    show pyUpper (pyStrip r.symbol) = r.symbol
    rw [hsym, pyUpper_pyStrip_stable]
  have hreg2 :
      (if truthy (getF (recordObj r) "regime") then some (getF (recordObj r) "regime")
       else none) = r.regime := by
    have ge : getF (recordObj r) "regime" = r.regime.getD .null := rfl
    rw [ge]
    cases hr : r.regime with
    | none => simp [truthy]
    | some v =>
      have hv : truthy v = true := by
        rw [hr] at hreg
        by_cases ht : truthy (getF obj "regime") = true
        · rw [if_pos ht] at hreg
          cases hreg
          exact ht
        · rw [if_neg ht] at hreg
          cases hreg
      simp [hv]
  have hcap2 :
      (if truthy (getF (recordObj r) "capsule_id") then some (getF (recordObj r) "capsule_id")
       else none) = r.capsule_id := by
    have ge : getF (recordObj r) "capsule_id" = r.capsule_id.getD .null := rfl
    rw [ge]
    cases hr : r.capsule_id with
    | none => simp [truthy]
    | some v =>
      have hv : truthy v = true := by
        rw [hr] at hcap
        by_cases ht : truthy (getF obj "capsule_id") = true
        · rw [if_pos ht] at hcap
          cases hcap
          exact ht
        · rw [if_neg ht] at hcap
          cases hcap
      simp [hv]
  have hdphi :
      _fnum (getF (recordObj r) "delta_phi") = r.delta_phi := by
    cases hr : r.delta_phi with
    | none =>
      have ge : getF (recordObj r) "delta_phi" = .null := by rw [show getF (recordObj r) "delta_phi" = (match r.delta_phi with | some q => Value.num q | none => Value.null) from rfl, hr]
      rw [ge]
      rfl
    | some q =>
      have ge : getF (recordObj r) "delta_phi" = .num q := by rw [show getF (recordObj r) "delta_phi" = (match r.delta_phi with | some q => Value.num q | none => Value.null) from rfl, hr]
      rw [ge]
      rfl
  unfold _normalize
  rw [hts2]
  dsimp only
  rw [show _fnum (getF (recordObj r) "open") = some r.«open» from rfl,
    show _fnum (getF (recordObj r) "high") = some r.high from rfl,
    show _fnum (getF (recordObj r) "low") = some r.low from rfl,
    show _fnum (getF (recordObj r) "close") = some r.close from rfl,
    show _fnum (getF (recordObj r) "volume") = some r.volume from rfl,
    hsym2, hreg2, hcap2, hdphi]
  dsimp only
  rw [if_neg (by rw [not_or]; exact ⟨htne, hsne⟩)]

deriving instance DecidableEq for Except

set_option maxRecDepth 100000 in
theorem utc_zero : utcfromtimestamp 0 = some ⟨1970, 1, 1, 0, 0, 0, 0⟩ := by decide

set_option maxRecDepth 100000 in
theorem utc_one : utcfromtimestamp 1 = some ⟨1970, 1, 1, 0, 0, 1, 0⟩ := by decide

/-- `_to_iso` raises only on a numeric timestamp outside the datetime
range. -/
theorem to_iso_error_inv (v : Value) (e : String) (h : _to_iso v = .error e) :
    ∃ q, v = .num q ∧ utcfromtimestamp q = none := by
  cases v with
  | null => exact absurd h (by simp [_to_iso])
  | bool b =>
    exfalso
    have h2 : isoOfTimestamp (if b then 1 else 0) = .error e := h
    unfold isoOfTimestamp at h2
    cases b with
    | true => rw [show (if (true : Bool) then (1:ℚ) else 0) = 1 from rfl, utc_one] at h2; cases h2
    | false => rw [show (if (false : Bool) then (1:ℚ) else 0) = 0 from rfl, utc_zero] at h2; cases h2
  | num q =>
    have h2 : isoOfTimestamp q = .error e := h
    unfold isoOfTimestamp at h2
    cases hu : utcfromtimestamp q with
    | some dt => rw [hu] at h2; cases h2
    | none => exact ⟨q, rfl, hu⟩
  | str s =>
    unfold _to_iso at h
    dsimp only at h
    split at h <;> cases h

/-- `_normalize` raises exactly when the timestamp conversion raises. -/
theorem normalize_error_of (obj : List (String × Value)) (e : String)
    (h : _to_iso (resolveTs obj) = .error e) : _normalize obj = .error e := by
  unfold _normalize
  rw [h]

theorem normalize_error_inv (obj : List (String × Value)) (e : String)
    (h : _normalize obj = .error e) : _to_iso (resolveTs obj) = .error e := by
  unfold _normalize at h
  cases htt : _to_iso (resolveTs obj) with
  | error e2 => rw [htt] at h; cases h; rfl
  | ok tsOpt =>
    exfalso
    rw [htt] at h
    dsimp only at h
    split at h
    · split at h <;> cases h
    · cases h

/-- When the timestamp conversion does not raise, `_normalize` produces no
record exactly when a required field fails the final check. -/
theorem normalize_ok_none_iff (obj : List (String × Value)) (tsOpt : Option String)
    (h : _to_iso (resolveTs obj) = .ok tsOpt) :
    (_normalize obj = .ok none ↔
      (tsOpt = none ∨ tsOpt = some "" ∨
       pyUpper (pyStrip (pyStr (resolveSym obj))) = "" ∨
       _fnum (getF obj "open") = none ∨ _fnum (getF obj "high") = none ∨
       _fnum (getF obj "low") = none ∨ _fnum (getF obj "close") = none ∨
       _fnum (getF obj "volume") = none)) := by
  unfold _normalize
  rw [h]
  dsimp only
  cases tsOpt with
  | none => simp
  | some ts =>
    cases hO : _fnum (getF obj "open") with
    | none => simp [hO]
    | some o =>
      cases hHi : _fnum (getF obj "high") with
      | none => simp [hHi]
      | some hi =>
        cases hLo : _fnum (getF obj "low") with
        | none => simp [hLo]
        | some lo =>
          cases hCl : _fnum (getF obj "close") with
          | none => simp [hCl]
          | some cl =>
            cases hVo : _fnum (getF obj "volume") with
            | none => simp [hVo]
            | some vo =>
              dsimp only
              split
              · rename_i hcond
                rcases hcond with hcond | hcond
                · subst hcond
                  simp
                · simp [hcond]
              · rename_i hcond
                rw [not_or] at hcond
                simp [hcond.1, hcond.2]

theorem pyOr_eq_or (a b : Value) : pyOr a b = a ∨ pyOr a b = b := by
  unfold pyOr
  split
  · left; rfl
  · right; rfl

theorem lookup_mem (l : List (String × Value)) (a : String) (b : Value)
    (h : l.lookup a = some b) : (a, b) ∈ l := by
  induction l with
  | nil => cases h
  | cons p t ih =>
    obtain ⟨k, v⟩ := p
    rw [List.lookup_cons] at h
    cases hbeq : a == k with
    | true =>
      rw [hbeq] at h
      simp only [Option.some_inj] at h
      subst h
      have hk : a = k := eq_of_beq hbeq
      subst hk
      exact List.mem_cons_self _ _
    | false =>
      rw [hbeq] at h
      exact List.mem_cons_of_mem _ (ih h)

theorem getF_mkCsv_shape (parts : List String) (k : String) :
    (∃ s, getF (mkCsvObj parts) k = .str s) ∨ getF (mkCsvObj parts) k = .null := by
  unfold getF
  cases hl : (mkCsvObj parts).reverse.lookup k with
  | none => right; simp [hl]
  | some v =>
    have hm : (k, v) ∈ (mkCsvObj parts).reverse := lookup_mem _ _ _ hl
    rw [List.mem_reverse] at hm
    unfold mkCsvObj at hm
    rw [List.mem_map] at hm
    obtain ⟨ik, _, heq⟩ := hm
    have hv : (match parts.get? ik.1 with
        | some p => Value.str p | none => Value.null) = v := by
      have h2 := congrArg Prod.snd heq
      simpa using h2
    cases hp : parts.get? ik.1 with
    | some p =>
      left
      refine ⟨p, ?_⟩
      rw [hp] at hv
      simpa using hv.symm
    | none =>
      right
      rw [hp] at hv
      simpa using hv.symm

theorem resolveTs_mkCsv_not_num (parts : List String) (q : ℚ) :
    resolveTs (mkCsvObj parts) ≠ .num q := by
  intro h
  unfold resolveTs at h
  have shape : ∀ k, (∃ s, getF (mkCsvObj parts) k = .str s) ∨ getF (mkCsvObj parts) k = .null :=
    getF_mkCsv_shape parts
  rcases pyOr_eq_or (getF (mkCsvObj parts) "timestamp")
      (pyOr (getF (mkCsvObj parts) "time")
        (pyOr (getF (mkCsvObj parts) "date") (getF (mkCsvObj parts) "datetime"))) with h1 | h1
  · rw [h1] at h
    rcases shape "timestamp" with ⟨s, hs⟩ | hs <;> rw [hs] at h <;> cases h
  · rw [h1] at h
    rcases pyOr_eq_or (getF (mkCsvObj parts) "time")
        (pyOr (getF (mkCsvObj parts) "date") (getF (mkCsvObj parts) "datetime")) with h2 | h2
    · rw [h2] at h
      rcases shape "time" with ⟨s, hs⟩ | hs <;> rw [hs] at h <;> cases h
    · rw [h2] at h
      rcases pyOr_eq_or (getF (mkCsvObj parts) "date")
          (getF (mkCsvObj parts) "datetime") with h3 | h3
      · rw [h3] at h
        rcases shape "date" with ⟨s, hs⟩ | hs <;> rw [hs] at h <;> cases h
      · rw [h3] at h
        rcases shape "datetime" with ⟨s, hs⟩ | hs <;> rw [hs] at h <;> cases h

/-- The CSV branch never raises: its field values are strings or `None`. -/
theorem parse_raw_not_error (s e : String) : _parse_line (.raw s) ≠ .error e := by
  unfold _parse_line
  dsimp only
  intro h
  split at h
  · cases h
  · split at h
    · cases h
    · have h1 := normalize_error_inv _ _ h
      obtain ⟨q, hq, _⟩ := to_iso_error_inv _ _ h1
      exact resolveTs_mkCsv_not_num _ q hq

/-! ## Claim C4: round-trip stability of the canonical encoding -/

/-- **C4**: for every record `r` produced by a successful `normalize`
(of any line, structured or CSV), serializing `r` with the compact
canonical structured-object encoding (`StdoutSink.write`) and feeding the
line back through the parser yields the same record, field by field. -/
theorem c4_round_trip (l : Line) (r : Bar) (h : _parse_line l = .ok (some r)) :
    _parse_line (stdoutLine r) = .ok (some r) := by
  have hn : ∃ obj, _normalize obj = .ok (some r) := by
    cases l with
    | json obj => exact ⟨obj, h⟩
    | raw s =>
      unfold _parse_line at h
      dsimp only at h
      split at h
      · cases h
      · split at h
        · cases h
        · exact ⟨_, h⟩
  obtain ⟨obj, hobj⟩ := hn
  show _normalize (recordObj r) = .ok (some r)
  exact normalize_recordObj obj r hobj

set_option maxRecDepth 10000 in
/-- Witness for C4 at the spec's own CSV scenario line. -/
theorem c4_round_trip_witness :
    _parse_line (stdoutLine ⟨"2024-01-02T10:00:00Z", "ES", 100, 101, mkRat 199 2,
        mkRat 201 2, 1200, none, none, none⟩) =
      .ok (some ⟨"2024-01-02T10:00:00Z", "ES", 100, 101, mkRat 199 2,
        mkRat 201 2, 1200, none, none, none⟩) :=
  c4_round_trip (.raw "2024-01-02T10:00:00Z,ES,100.0,101.0,99.5,100.5,1200") _ (by decide)

/-! ## Claim C7: parsing never raises — corrected -/

/-- **C7** (counterexample): a structured line whose numeric timestamp lies
below the representable datetime range makes `_parse_line` raise
(`datetime.utcfromtimestamp` is called with no surrounding `try`), instead
of returning "no record"; the epoch `-62135596801` is one second before
0001-01-01T00:00:00. -/
theorem c7_counterexample :
    _parse_line (.json [("timestamp", .num (-62135596801)), ("symbol", .str "ES"),
        ("open", .num 1), ("high", .num 1), ("low", .num 1), ("close", .num 1),
        ("volume", .num 1)]) = .error "OverflowError" ∧
    ¬ ∃ res, _parse_line (.json [("timestamp", .num (-62135596801)), ("symbol", .str "ES"),
        ("open", .num 1), ("high", .num 1), ("low", .num 1), ("close", .num 1),
        ("volume", .num 1)]) = .ok res := by
  constructor
  · decide
  · rintro ⟨res, hres⟩
    have h2 : Except.error (ε := String) "OverflowError" = .ok res := by
      rw [← hres]
      decide
    cases h2

/-- **C7** (amended): `_parse_line` returns (a record or no record) without
raising on every line except a structured-object line whose coalesced
timestamp is a numeric epoch outside the representable datetime range, in
which case the conversion's error escapes. -/
theorem c7_parse_total (l : Line)
    (h : ¬ ∃ obj q, l = Line.json obj ∧ resolveTs obj = .num q ∧
      utcfromtimestamp q = none) :
    ∃ res, _parse_line l = .ok res := by
  cases hres : _parse_line l with
  | ok res => exact ⟨res, rfl⟩
  | error e =>
    exfalso
    cases l with
    | raw s => exact parse_raw_not_error s e hres
    | json obj =>
      have h1 := normalize_error_inv obj e hres
      obtain ⟨q, hq, hu⟩ := to_iso_error_inv _ _ h1
      exact h ⟨obj, q, rfl, hq, hu⟩

/-- Witness for C7 at the spec's own garbage scenario line. -/
theorem c7_parse_total_witness :
    ∃ res, _parse_line (.raw "garbage,,,") = .ok res :=
  c7_parse_total (.raw "garbage,,,") (by rintro ⟨obj, q, hq, _⟩; cases hq)

/-! ## Claim C3: rejection of bad required fields — corrected -/

/-- **C3** (counterexample): a line with a non-numeric `open` ("abc") is
claimed to yield no record; but when the same line's numeric timestamp is
out of range, `_normalize` raises instead of returning no record (the
timestamp is converted before the required-field check can reject). -/
theorem c3_counterexample :
    _normalize [("timestamp", .num (-62135596801)), ("symbol", .str "ES"),
        ("open", .str "abc"), ("high", .num 1), ("low", .num 1), ("close", .num 1),
        ("volume", .num 1)] = .error "OverflowError" ∧
    _normalize [("timestamp", .num (-62135596801)), ("symbol", .str "ES"),
        ("open", .str "abc"), ("high", .num 1), ("low", .num 1), ("close", .num 1),
        ("volume", .num 1)] ≠ .ok none := by
  constructor
  · decide
  · decide

/-- The lookup keys the required-field outcome can depend on: the canonical
seven plus the §4.1 extraction aliases. -/
def requiredAliasKeys : List String :=
  ["timestamp", "time", "date", "datetime", "symbol", "sym",
   "open", "high", "low", "close", "volume"]

/-- **C3** (amended): provided normalization does not raise (the coalesced
timestamp is not an out-of-range numeric epoch), a line whose coalesced
timestamp is missing/null, or whose coalesced symbol strips to the empty
string, or with a non-coercible (missing, null or non-numeric) value in
any of the five price/volume fields, yields no record; and whether a line
is rejected depends only on the required fields and their aliases, so the
optional fields never cause rejection. -/
theorem c3_reject_bad_required :
    (∀ obj : List (String × Value),
      (¬ ∃ q, resolveTs obj = .num q ∧ utcfromtimestamp q = none) →
      ((resolveTs obj = .null) ∨
       (∃ s, resolveSym obj = .str s ∧ pyStrip s = "") ∨
       (∃ k, k ∈ (["open", "high", "low", "close", "volume"] : List String) ∧
         _fnum (getF obj k) = none)) →
      _normalize obj = .ok none) ∧
    (∀ obj obj' : List (String × Value),
      (∀ k, k ∈ requiredAliasKeys → getF obj' k = getF obj k) →
      (_normalize obj = .ok none ↔ _normalize obj' = .ok none)) := by
  constructor
  · intro obj hnr hbad
    have hok : ∃ tsOpt, _to_iso (resolveTs obj) = .ok tsOpt := by
      cases htt : _to_iso (resolveTs obj) with
      | ok t => exact ⟨t, rfl⟩
      | error e =>
        obtain ⟨q, hq, hu⟩ := to_iso_error_inv _ _ htt
        exact absurd ⟨q, hq, hu⟩ hnr
    obtain ⟨tsOpt, htt⟩ := hok
    rw [normalize_ok_none_iff obj tsOpt htt]
    rcases hbad with hb | ⟨s, hs, hstrip⟩ | ⟨k, hk, hfk⟩
    · left
      have h2 := htt
      rw [hb] at h2
      rw [show _to_iso Value.null = Except.ok none from rfl] at h2
      injection h2 with h3
      exact h3.symm
    · right; right; left
      rw [hs]
      show pyUpper (pyStrip s) = ""
      rw [hstrip]
      rfl
    · simp only [List.mem_cons, List.not_mem_nil, or_false] at hk
      rcases hk with rfl | rfl | rfl | rfl | rfl
      · right; right; right; left; exact hfk
      · right; right; right; right; left; exact hfk
      · right; right; right; right; right; left; exact hfk
      · right; right; right; right; right; right; left; exact hfk
      · right; right; right; right; right; right; right; exact hfk
  · intro obj obj' hagree
    have e1 : resolveTs obj' = resolveTs obj := by
      unfold resolveTs
      rw [hagree "timestamp" (by simp [requiredAliasKeys]),
        hagree "time" (by simp [requiredAliasKeys]),
        hagree "date" (by simp [requiredAliasKeys]),
        hagree "datetime" (by simp [requiredAliasKeys])]
    have e2 : resolveSym obj' = resolveSym obj := by
      unfold resolveSym
      rw [hagree "symbol" (by simp [requiredAliasKeys]),
        hagree "sym" (by simp [requiredAliasKeys])]
    cases htt : _to_iso (resolveTs obj) with
    | error e =>
      have hn1 : _normalize obj = .error e := normalize_error_of _ _ htt
      have hn2 : _normalize obj' = .error e := normalize_error_of _ _ (by rw [e1]; exact htt)
      rw [hn1, hn2]
    | ok tsOpt =>
      rw [normalize_ok_none_iff obj tsOpt htt,
        normalize_ok_none_iff obj' tsOpt (by rw [e1]; exact htt), e2,
        hagree "open" (by simp [requiredAliasKeys]),
        hagree "high" (by simp [requiredAliasKeys]),
        hagree "low" (by simp [requiredAliasKeys]),
        hagree "close" (by simp [requiredAliasKeys]),
        hagree "volume" (by simp [requiredAliasKeys])]

/-- Witness for C3: a line with a null timestamp and a non-numeric close
is rejected, and adding optional fields does not change rejection. -/
theorem c3_reject_bad_required_witness :
    _normalize [("timestamp", Value.null), ("symbol", Value.str "ES"),
        ("open", Value.num 1), ("high", Value.num 1), ("low", Value.num 1),
        ("close", Value.str "oops"), ("volume", Value.num 1)] = .ok none :=
  c3_reject_bad_required.1 _
    (by rintro ⟨q, hq, _⟩; cases hq)
    (Or.inr (Or.inr ⟨"close", by decide, by decide⟩))

/-! ## Claim C2: well-formed lines are accepted with ISO-Z timestamps — corrected -/

/-- **C2** (counterexample): the numeric epoch `0` is present and numeric,
but Python's `or`-coalescing treats `0` as falsy, so the timestamp falls
through to the missing aliases and the record is rejected — instead of
being accepted with timestamp `1970-01-01T00:00:00Z` as the claim
requires. -/
theorem c2_counterexample :
    _normalize [("timestamp", Value.num 0), ("symbol", Value.str "ES"),
        ("open", Value.num 1), ("high", Value.num 1), ("low", Value.num 1),
        ("close", Value.num 1), ("volume", Value.num 1)] = .ok none ∧
    ¬ ∃ r : Bar, _normalize [("timestamp", Value.num 0), ("symbol", Value.str "ES"),
        ("open", Value.num 1), ("high", Value.num 1), ("low", Value.num 1),
        ("close", Value.num 1), ("volume", Value.num 1)] = .ok (some r) := by
  constructor
  · decide
  · rintro ⟨r, hr⟩
    have h2 : (Except.ok (none : Option Bar) : Except String (Option Bar)) = .ok (some r) := by
      rw [← hr]
      decide
    simp at h2

/-- **C2** (amended): a well-formed line is accepted with an ISO-8601 UTC
timestamp carrying a trailing `Z`, with the numeric fields equal to the
parsed floats — provided the numeric epoch timestamp is nonzero (zero is
falsy under the `or`-coalescing) and within the representable datetime
range (outside it the conversion raises).  First conjunct: the
structured-object path with a numeric epoch; second: the CSV path with
string fields. -/
theorem c2_well_formed_lines :
    (∀ (obj : List (String × Value)) (q : ℚ) (dt : PyDateTime) (sym : String)
      (qo qh ql qc qv : ℚ),
      getF obj "timestamp" = .num q → q ≠ 0 → utcfromtimestamp q = some dt →
      getF obj "symbol" = .str sym → pyUpper (pyStrip sym) ≠ "" →
      getF obj "open" = .num qo → getF obj "high" = .num qh →
      getF obj "low" = .num ql → getF obj "close" = .num qc →
      getF obj "volume" = .num qv →
      _normalize obj = .ok (some
        ⟨isoformat dt ++ "Z", pyUpper (pyStrip sym), qo, qh, ql, qc, qv,
         _fnum (getF obj "delta_phi"),
         (if truthy (getF obj "regime") then some (getF obj "regime") else none),
         (if truthy (getF obj "capsule_id") then some (getF obj "capsule_id") else none)⟩) ∧
      (isoformat dt ++ "Z").data.getLast? = some 'Z') ∧
    (∀ (s tss sy so sh sl sc sv t : String) (qo qh ql qc qv : ℚ),
      (stripList s.data).isEmpty = false →
      (startsBrace (stripList s.data) && endsBrace (stripList s.data)) = false →
      (splitComma (stripList s.data)).map (fun cl => (⟨cl⟩ : String)) =
        [tss, sy, so, sh, sl, sc, sv] →
      _to_iso (.str tss) = .ok (some t) →
      pyUpper (pyStrip sy) ≠ "" →
      parseFloat so = some qo → parseFloat sh = some qh → parseFloat sl = some ql →
      parseFloat sc = some qc → parseFloat sv = some qv →
      _parse_line (.raw s) = .ok (some
        ⟨t, pyUpper (pyStrip sy), qo, qh, ql, qc, qv, none, none, none⟩) ∧
      t.data.getLast? = some 'Z') := by
  constructor
  · intro obj q dt sym qo qh ql qc qv hts hq hdt hsy hsyne ho hh hl hc hv
    have hsne : sym ≠ "" := by
      intro h0
      exact hsyne (by rw [h0]; rfl)
    have hres : resolveTs obj = .num q := by
      unfold resolveTs
      rw [hts, pyOr, if_pos]
      simp [truthy, Rat.num_eq_zero, hq]
    have hsym : resolveSym obj = .str sym := by
      unfold resolveSym
      rw [hsy, pyOr, if_pos (truthy_str_of_ne _ hsne)]
    have hlastZ : (isoformat dt ++ "Z").data.getLast? = some 'Z' := by
      rw [String.data_append]
      exact List.getLast?_concat _
    refine ⟨?_, hlastZ⟩
    unfold _normalize
    rw [hres, show _to_iso (Value.num q) = isoOfTimestamp q from rfl]
    unfold isoOfTimestamp
    rw [hdt]
    dsimp only
    rw [hsym, ho, hh, hl, hc, hv]
    rw [show _fnum (Value.num qo) = some qo from rfl,
      show _fnum (Value.num qh) = some qh from rfl,
      show _fnum (Value.num ql) = some ql from rfl,
      show _fnum (Value.num qc) = some qc from rfl,
      show _fnum (Value.num qv) = some qv from rfl]
    dsimp only
    rw [if_neg]
    · rfl
    · rw [not_or]
      exact ⟨iso_ne_empty dt, by show pyUpper (pyStrip sym) ≠ ""; exact hsyne⟩
  · intro s tss sy so sh sl sc sv t qo qh ql qc qv hne hbr hsplit hti hsyne hqo hqh hql hqc hqv
    have htne : tss ≠ "" := by
      intro h0
      rw [h0] at hti
      simp [_to_iso] at hti
    have hsne : sy ≠ "" := by
      intro h0
      exact hsyne (by rw [h0]; rfl)
    obtain ⟨dt, hdv, hdteq⟩ := to_iso_shape _ _ hti
    have hlastZ : t.data.getLast? = some 'Z' := by
      rw [hdteq, String.data_append]
      exact List.getLast?_concat _
    refine ⟨?_, hlastZ⟩
    unfold _parse_line
    dsimp only
    rw [if_neg (by simp [hne]), if_neg (by simp [hbr]), hsplit]
    have hres : resolveTs (mkCsvObj [tss, sy, so, sh, sl, sc, sv]) = .str tss := by
      show pyOr (.str tss) _ = .str tss
      rw [pyOr, if_pos (truthy_str_of_ne _ htne)]
    have hsym : resolveSym (mkCsvObj [tss, sy, so, sh, sl, sc, sv]) = .str sy := by
      show pyOr (.str sy) _ = .str sy
      rw [pyOr, if_pos (truthy_str_of_ne _ hsne)]
    unfold _normalize
    rw [hres, hti]
    dsimp only
    rw [hsym,
      show _fnum (getF (mkCsvObj [tss, sy, so, sh, sl, sc, sv]) "open") = parseFloat so from rfl,
      show _fnum (getF (mkCsvObj [tss, sy, so, sh, sl, sc, sv]) "high") = parseFloat sh from rfl,
      show _fnum (getF (mkCsvObj [tss, sy, so, sh, sl, sc, sv]) "low") = parseFloat sl from rfl,
      show _fnum (getF (mkCsvObj [tss, sy, so, sh, sl, sc, sv]) "close") = parseFloat sc from rfl,
      show _fnum (getF (mkCsvObj [tss, sy, so, sh, sl, sc, sv]) "volume") = parseFloat sv from rfl,
      hqo, hqh, hql, hqc, hqv]
    dsimp only
    rw [if_neg]
    · rfl
    · rw [not_or]
      refine ⟨by rw [hdteq]; exact iso_ne_empty dt, ?_⟩
      show pyUpper (pyStrip sy) ≠ ""
      exact hsyne

set_option maxRecDepth 100000 in
/-- Witness for C2 at a concrete structured line (epoch 86400, symbol
`es`). -/
theorem c2_well_formed_lines_witness :
    _normalize [("timestamp", Value.num 86400), ("symbol", Value.str "es"),
        ("open", Value.num (mkRat 3 2)), ("high", Value.num 2), ("low", Value.num 1),
        ("close", Value.num 2), ("volume", Value.num 100)] =
      .ok (some ⟨"1970-01-02T00:00:00Z", "ES", mkRat 3 2, 2, 1, 2, 100,
        none, none, none⟩) ∧
    ("1970-01-02T00:00:00Z" : String).data.getLast? = some 'Z' :=
  c2_well_formed_lines.1 _ 86400 ⟨1970, 1, 2, 0, 0, 0, 0⟩ "es" (mkRat 3 2) 2 1 2 100
    rfl (by decide) (by decide) rfl (by decide) rfl rfl rfl rfl rfl

/-! ## Claim C1: the dispatch worker and sink fan-out — corrected

`PySink` abstracts a configured sink by which records its `write` raises
on.  `dispatchRow` is the body of `serve.writer` for one dequeued record:
the `for sink in sinks: sink.write(row)` loop runs inside a single `try`,
so the first raising sink aborts the loop; the `except` prints one sink
error (the `Bool`), and the worker proceeds to the next record. -/

structure PySink (α : Type) where
  fails : α → Bool

/-- The write loop from sink index `i`: delivered sink indices and whether
a sink error was caught and logged. -/
def dispatchGo {α : Type} : Nat → List (PySink α) → α → List Nat × Bool
  | _, [], _ => ([], false)
  | i, s :: ss, row =>
    if s.fails row then ([], true)
    else
      let r := dispatchGo (i + 1) ss row
      (i :: r.1, r.2)

/-- One dequeued record: `try: for sink in sinks: sink.write(row) except:
log`. -/
def dispatchRow {α : Type} (sinks : List (PySink α)) (row : α) : List Nat × Bool :=
  dispatchGo 0 sinks row

/-- The worker loop over the dequeued records; it never stops on a sink
error. -/
def runWorker {α : Type} (sinks : List (PySink α)) (rows : List α) :
    List (List Nat × Bool) :=
  rows.map (dispatchRow sinks)

theorem dispatchGo_eq {α : Type} (row : α) : ∀ (sinks : List (PySink α)) (i : Nat),
    dispatchGo i sinks row =
      ((List.range (sinks.findIdx (fun s => s.fails row))).map (· + i),
       decide (sinks.findIdx (fun s => s.fails row) < sinks.length)) := by
  intro sinks
  induction sinks with
  | nil => intro i; simp [dispatchGo]
  | cons s ss ih =>
    intro i
    rw [dispatchGo]
    by_cases hf : s.fails row = true
    · rw [if_pos hf, List.findIdx_cons, hf]
      simp
    · rw [if_neg hf, List.findIdx_cons]
      rw [show s.fails row = false by simpa using hf]
      rw [ih (i + 1)]
      dsimp only [cond]
      rw [Prod.mk.injEq]
      refine ⟨?_, ?_⟩
      · rw [List.range_succ_eq_map, List.map_cons, List.map_map]
        congr 1
        · omega
        · apply List.map_congr_left
          intro a _
          simp [Function.comp]
          omega
      · simp [Nat.succ_lt_succ_iff]

/-- **C1** (counterexample): with an always-failing first sink and a
healthy second sink, the record reaches no sink at all — in particular the
second, healthy sink does not receive it, though the sink error is caught
and logged and the worker survives. -/
theorem c1_counterexample :
    (dispatchRow [⟨fun _ => true⟩, ⟨fun _ => false⟩] (0 : Nat)).1 = [] ∧
    1 ∉ (dispatchRow [⟨fun _ => true⟩, ⟨fun _ => false⟩] (0 : Nat)).1 ∧
    (dispatchRow [⟨fun _ => true⟩, ⟨fun _ => false⟩] (0 : Nat)).2 = true := by
  refine ⟨rfl, ?_, rfl⟩
  intro hmem
  rw [show (dispatchRow [⟨fun _ => true⟩, ⟨fun _ => false⟩] (0 : Nat)).1 = [] from rfl] at hmem
  cases hmem

/-- **C1** (amended): a sink-write failure is caught and logged by the
dispatch worker and does not crash it (every queued record is processed),
but the record is delivered exactly to the sinks strictly before the first
failing one, in configured order; the failing sink and all later sinks are
skipped for that record. -/
theorem c1_dispatch_isolation {α : Type} (sinks : List (PySink α)) (row : α)
    (rows : List α) :
    (dispatchRow sinks row).1 = List.range (sinks.findIdx (fun s => s.fails row)) ∧
    ((dispatchRow sinks row).2 = true ↔
      sinks.findIdx (fun s => s.fails row) < sinks.length) ∧
    (runWorker sinks rows).length = rows.length := by
  refine ⟨?_, ?_, by simp [runWorker]⟩
  · rw [dispatchRow, dispatchGo_eq]
    simp
  · rw [dispatchRow, dispatchGo_eq]
    simp

/-! ## Claim C9: shutdown closes every sink — corrected

`CSink` abstracts a configured sink by whether its `close()` raises.  The
`finally` block of `main` runs `try: sink.close() except Exception: pass`
per sink: every sink is closed in order, and a failure is swallowed with
no log line. -/

structure CSink where
  closeFails : Bool

/-- The shutdown loop from index `i`: the indices closed, in order, and
the log lines emitted (the bare `except: pass` emits none). -/
def closeAllFrom : Nat → List CSink → List Nat × List String
  | _, [] => ([], [])
  | i, _ :: ss =>
    let r := closeAllFrom (i + 1) ss
    (i :: r.1, r.2)

def closeAll (sinks : List CSink) : List Nat × List String := closeAllFrom 0 sinks

/-- **C9** (counterexample): a sink whose close raises is closed (invoked
once) but nothing is logged — the claim's "caught and logged" does not
hold, the failure is silently swallowed. -/
theorem c9_counterexample :
    closeAll [⟨true⟩] = ([0], []) ∧ (closeAll [⟨true⟩]).2 = [] := ⟨rfl, rfl⟩

theorem closeAllFrom_eq (sinks : List CSink) : ∀ i,
    closeAllFrom i sinks = ((List.range sinks.length).map (· + i), []) := by
  induction sinks with
  | nil => intro i; simp [closeAllFrom]
  | cons s ss ih =>
    intro i
    rw [closeAllFrom, ih (i + 1)]
    dsimp only
    rw [Prod.mk.injEq]
    refine ⟨?_, ?_⟩
    · simp only [List.length_cons]
      rw [List.range_succ_eq_map, List.map_cons, List.map_map]
      congr 1
      · omega
      · apply List.map_congr_left
        intro a _
        simp [Function.comp]
        omega
    · rfl

/-- **C9** (amended): at shutdown `close()` is invoked exactly once on
every configured sink, in configured order, regardless of earlier close
failures; each failure is caught and silently ignored (nothing is logged),
and nothing is propagated. -/
theorem c9_close_every_sink (sinks : List CSink) :
    (closeAll sinks).1 = List.range sinks.length ∧ (closeAll sinks).2 = [] := by
  rw [closeAll, closeAllFrom_eq]
  simp

/-! ## Claim C6: the database sink's batched flush — confirmed

`DBState` is the `SQLiteSink`'s buffering state: the in-memory batch, the
time of the last flush, and the list of batches committed so far (each
`executemany` + `commit` appends one batch).  `time.time()` is passed in
as `now`; the two reads of the clock inside one `write` are modelled as
the same instant. -/

structure DBState (α : Type) where
  batch : List α
  lastFlush : ℚ
  flushed : List (List α)
deriving DecidableEq

/-- `SQLiteSink.flush`: no-op on an empty batch, otherwise commit the
whole batch as one transaction and restamp the flush clock. -/
def sqFlush {α : Type} (s : DBState α) (now : ℚ) : DBState α :=
  if s.batch.isEmpty then s else ⟨[], now, s.flushed ++ [s.batch]⟩

/-- `SQLiteSink.write`: append, then flush when the batch has reached 250
records or more than 1.0 second has elapsed since the last flush. -/
def sqWrite {α : Type} (s : DBState α) (row : α) (now : ℚ) : DBState α :=
  if 250 ≤ (s.batch ++ [row]).length ∨ qlt (qofInt 1) (qsub now s.lastFlush) = true then
    sqFlush ⟨s.batch ++ [row], s.lastFlush, s.flushed⟩ now
  else ⟨s.batch ++ [row], s.lastFlush, s.flushed⟩

/-- `SQLiteSink.__init__`: empty batch, `_last_flush = time.time()`. -/
def sqInit {α : Type} (now : ℚ) : DBState α := ⟨[], now, []⟩

/-- `SQLiteSink.close`: a final flush (then the connection is released). -/
def sqClose {α : Type} (s : DBState α) (now : ℚ) : DBState α := sqFlush s now

/-- A burst of writes sharing one instant (no interleaved delay). -/
def sqWriteAll {α : Type} (s : DBState α) (rows : List α) (now : ℚ) : DBState α :=
  rows.foldl (fun st r => sqWrite st r now) s

/-- Below both flush triggers, a burst of writes only accumulates. -/
theorem sq_no_flush {α : Type} : ∀ (rows : List α) (s : DBState α) (now : ℚ),
    s.batch.length + rows.length < 250 →
    qlt (qofInt 1) (qsub now s.lastFlush) = false →
    sqWriteAll s rows now = ⟨s.batch ++ rows, s.lastFlush, s.flushed⟩ := by
  intro rows
  induction rows with
  | nil =>
    intro s now _ _
    show s = _
    cases s
    simp
  | cons r rs ih =>
    intro s now hlen htime
    show sqWriteAll (sqWrite s r now) rs now = _
    rw [sqWrite, if_neg]
    · have hstep := ih ⟨s.batch ++ [r], s.lastFlush, s.flushed⟩ now
        (by
          show (s.batch ++ [r]).length + rs.length < 250
          simp only [List.length_append, List.length_singleton]
          simp only [List.length_cons] at hlen
          omega)
        htime
      rw [hstep]
      simp
    · rw [not_or]
      constructor
      · simp only [List.length_append, List.length_singleton]
        simp only [List.length_cons] at hlen
        omega
      · simp [htime]

set_option maxRecDepth 8000 in
/-- **C6**: `write` buffers the record and triggers a batched flush of the
whole buffer exactly when the buffer has reached 250 records or more than
1.0 second has elapsed since the last flush; `close()` performs a final
flush.  In particular 251 rapid writes with no interleaved delay produce
exactly one flush, of the first 250, before the 251st is buffered, and a
subsequent `close()` flushes the one remaining record. -/
theorem c6_batched_flush :
    (∀ (α : Type) (s : DBState α) (row : α) (now : ℚ),
      ((250 ≤ s.batch.length + 1 ∨ 1 < now - s.lastFlush) →
        sqWrite s row now = ⟨[], now, s.flushed ++ [s.batch ++ [row]]⟩) ∧
      (¬ (250 ≤ s.batch.length + 1 ∨ 1 < now - s.lastFlush) →
        sqWrite s row now = ⟨s.batch ++ [row], s.lastFlush, s.flushed⟩) ∧
      ((sqWrite s row now).flushed ≠ s.flushed ↔
        (250 ≤ s.batch.length + 1 ∨ 1 < now - s.lastFlush))) ∧
    (∀ (α : Type) (s : DBState α) (now : ℚ),
      s.batch ≠ [] → sqClose s now = ⟨[], now, s.flushed ++ [s.batch]⟩) ∧
    (sqWriteAll (sqInit 0) (List.range 251) 0 =
      ⟨[250], 0, [List.range 250]⟩ ∧
     sqClose (sqWriteAll (sqInit 0) (List.range 251) 0) 0 =
      ⟨[], 0, [List.range 250, [250]]⟩) := by
  have hcond : ∀ (α : Type) (s : DBState α) (row : α) (now : ℚ),
      (250 ≤ (s.batch ++ [row]).length ∨ qlt (qofInt 1) (qsub now s.lastFlush) = true) ↔
      (250 ≤ s.batch.length + 1 ∨ 1 < now - s.lastFlush) := by
    intro α s row now
    apply or_congr
    · rw [List.length_append, List.length_singleton]
    · rw [qlt_iff, qofInt_eq, qsub_eq]
      norm_num
  have htime0 : qlt (qofInt 1) (qsub (0:ℚ) ((sqInit (α := Nat) 0).lastFlush)) = false := by
    rw [show (sqInit (α := Nat) 0).lastFlush = 0 from rfl]
    rw [Bool.eq_false_iff]
    intro h2
    rw [qlt_iff, qofInt_eq, qsub_eq] at h2
    norm_num at h2
  have hA : sqWriteAll (sqInit (α := Nat) 0) (List.range 249) 0 =
      ⟨List.range 249, 0, []⟩ := by
    rw [sq_no_flush (List.range 249) (sqInit 0) 0 (by simp [sqInit]) htime0]
    simp [sqInit]
  have hB : sqWriteAll (sqInit (α := Nat) 0) (List.range 251) 0 =
      ⟨[250], 0, [List.range 250]⟩ := by
    have hsplit : List.range 251 = (List.range 249 ++ [249]) ++ [250] := by
      rw [← List.range_succ, ← List.range_succ]
    rw [hsplit, sqWriteAll, List.foldl_append, List.foldl_append]
    rw [show List.foldl (fun st r => sqWrite st r 0) (sqInit (α := Nat) 0) (List.range 249) =
      sqWriteAll (sqInit 0) (List.range 249) 0 from rfl, hA]
    rw [show List.foldl (fun st r => sqWrite st r (0:ℚ))
        (⟨List.range 249, 0, []⟩ : DBState Nat) [249] =
      sqWrite ⟨List.range 249, 0, []⟩ 249 0 from rfl]
    rw [sqWrite, if_pos]
    · rw [sqFlush, if_neg (by simp)]
      show sqWrite (⟨[], 0, [List.range 249 ++ [249]]⟩ : DBState Nat) 250 0 = _
      rw [sqWrite, if_neg]
      · rw [← List.range_succ]
        rfl
      · rw [not_or]
        refine ⟨by simp, ?_⟩
        rw [show (⟨[], (0:ℚ), [List.range 249 ++ [249]]⟩ : DBState Nat).lastFlush =
          (sqInit (α := Nat) 0).lastFlush from rfl]
        simp [htime0]
    · left
      simp
  refine ⟨?_, ?_, hB, ?_⟩
  · intro α s row now
    refine ⟨?_, ?_, ?_⟩
    · intro h
      rw [sqWrite, if_pos ((hcond α s row now).2 h), sqFlush]
      rw [if_neg (by simp)]
    · intro h
      rw [sqWrite, if_neg]
      intro h2
      exact h ((hcond α s row now).1 h2)
    · constructor
      · intro h
        by_contra h2
        rw [sqWrite, if_neg] at h
        · exact h rfl
        · intro h3
          exact h2 ((hcond α s row now).1 h3)
      · intro h
        rw [sqWrite, if_pos ((hcond α s row now).2 h), sqFlush, if_neg (by simp)]
        simp
  · intro α s now h
    rw [sqClose, sqFlush, if_neg (by simpa using h)]
  · rw [hB, sqClose, sqFlush, if_neg (by simp)]
    rfl

/-! ## `RotatingFileSink` (`src/bar_pipeline.py` 146–174)

The sink renders a path from a date pattern on every write and rotates to
a fresh append-mode handle whenever the rendered path changes.  The file
system is modelled by `RotSys`: the set of existing directories (abstract:
a directory exists exactly when it is listed), the files with their
appended rows, and the path of the currently open handle.  `os.path.dirname`
is `dirnameChars` (POSIX rules for slash-separated paths); rendering is a
caller-supplied function of the wall-clock instant.  Opening a path in
append mode (`open(path, "a")`) creates the file when absent but raises
`FileNotFoundError` when its (non-empty) parent directory does not exist —
`RotatingFileSink._ensure_fp` never calls `os.makedirs`; only `__init__`
does, and only for the directory of the path rendered at construction
time. -/

/-- `os.path.dirname` (posixpath): everything before the final slash, with
trailing slashes of a non-root head stripped. -/
def dirnameChars (p : List Char) : List Char :=
  let head := (p.reverse.dropWhile (fun c => c != '/')).reverse
  if head ≠ [] ∧ head.any (fun c => c != '/') = true then
    (head.reverse.dropWhile (fun c => c == '/')).reverse
  else head

/-- The file system plus sink state: existing directories, file contents
(keyed by path, in creation order), and `current_path`. -/
structure RotSys (α : Type) where
  dirs : List (List Char)
  files : List (List Char × List α)
  current : Option (List Char)
deriving DecidableEq

/-- Appending one row to a file in append mode: the path's entry grows by
one row; a missing file is created holding just that row. -/
def appendRow {α : Type} : List (List Char × List α) → List Char → α → List (List Char × List α)
  | [], p, r => [(p, [r])]
  | (q, rs) :: t, p, r => if q = p then (q, rs ++ [r]) :: t else (q, rs) :: appendRow t p r

/-- The rows a path's file holds (`none`: no such file). -/
def lookupFile {α : Type} : List (List Char × List α) → List Char → Option (List α)
  | [], _ => none
  | (q, rs) :: t, p => if q = p then some rs else lookupFile t p

/-- A burst of rows appended to one path. -/
def appendRows {α : Type} (files : List (List Char × List α)) (p : List Char)
    (rows : List α) : List (List Char × List α) :=
  rows.foldl (fun f r => appendRow f p r) files

/-- `RotatingFileSink.__init__`: no handle, no current path, and
`os.makedirs` on the directory of the path rendered now — guarded by
`if directory:`. -/
def rotInit {α : Type} (render : ℚ → List Char) (t0 : ℚ)
    (dirs0 : List (List Char)) : RotSys α :=
  if dirnameChars (render t0) = [] then ⟨dirs0, [], none⟩
  else ⟨dirs0 ++ [dirnameChars (render t0)], [], none⟩

/-- `RotatingFileSink.write` at instant `t`: `_ensure_fp` re-renders the
path; if it equals `current_path` the row is appended to the open file;
otherwise the old handle is closed and the new path is opened in append
mode, which raises `FileNotFoundError` when the path's non-empty parent
directory does not exist (no `makedirs` here). -/
def rotWrite {α : Type} (render : ℚ → List Char) (sys : RotSys α) (t : ℚ)
    (row : α) : Except String (RotSys α) :=
  if sys.current = some (render t) then
    .ok ⟨sys.dirs, appendRow sys.files (render t) row, sys.current⟩
  else if dirnameChars (render t) ≠ [] ∧ dirnameChars (render t) ∉ sys.dirs then
    .error "FileNotFoundError"
  else
    .ok ⟨sys.dirs, appendRow sys.files (render t) row, some (render t)⟩

/-- A sequence of timed writes, stopping at the first exception. -/
def rotWriteAll {α : Type} (render : ℚ → List Char) :
    RotSys α → List (ℚ × α) → Except String (RotSys α)
  | sys, [] => .ok sys
  | sys, w :: ws =>
    match rotWrite render sys w.1 w.2 with
    | .ok s2 => rotWriteAll render s2 ws
    | .error e => .error e

theorem rotWriteAll_cons_ok {α : Type} {render : ℚ → List Char} {sys s2 : RotSys α}
    {w : ℚ × α} {ws : List (ℚ × α)} (h : rotWrite render sys w.1 w.2 = .ok s2) :
    rotWriteAll render sys (w :: ws) = rotWriteAll render s2 ws := by
  simp only [rotWriteAll]
  rw [h]

theorem rotWriteAll_cons_error {α : Type} {render : ℚ → List Char} {sys : RotSys α}
    {w : ℚ × α} {ws : List (ℚ × α)} {e : String}
    (h : rotWrite render sys w.1 w.2 = .error e) :
    rotWriteAll render sys (w :: ws) = .error e := by
  simp only [rotWriteAll]
  rw [h]

theorem rotWriteAll_append_ok {α : Type} {render : ℚ → List Char} :
    ∀ (xs : List (ℚ × α)) (sys s2 : RotSys α) (ys : List (ℚ × α)),
      rotWriteAll render sys xs = .ok s2 →
      rotWriteAll render sys (xs ++ ys) = rotWriteAll render s2 ys := by
  intro xs
  induction xs with
  | nil =>
    intro sys s2 ys h
    rw [show rotWriteAll render sys [] = .ok sys from rfl] at h
    cases h
    rfl
  | cons w rest ih =>
    intro sys s2 ys h
    cases hw : rotWrite render sys w.1 w.2 with
    | error e =>
      rw [rotWriteAll_cons_error hw] at h
      cases h
    | ok s1 =>
      rw [rotWriteAll_cons_ok hw] at h
      rw [List.cons_append, rotWriteAll_cons_ok hw]
      exact ih s1 s2 ys h

theorem lookupFile_appendRow_self {α : Type} (files : List (List Char × List α))
    (p : List Char) (r : α) :
    lookupFile (appendRow files p r) p = some ((lookupFile files p).getD [] ++ [r]) := by
  induction files with
  | nil => simp [appendRow, lookupFile]
  | cons hd t ih =>
    obtain ⟨q, rs⟩ := hd
    by_cases h : q = p
    · subst h
      simp [appendRow, lookupFile]
    · simp [appendRow, lookupFile, h, ih]

theorem lookupFile_appendRow_ne {α : Type} (files : List (List Char × List α))
    {p q : List Char} (r : α) (h : q ≠ p) :
    lookupFile (appendRow files p r) q = lookupFile files q := by
  induction files with
  | nil => simp [appendRow, lookupFile, Ne.symm h]
  | cons hd t ih =>
    obtain ⟨k, rs⟩ := hd
    by_cases hk : k = p
    · subst hk
      simp [appendRow, lookupFile, Ne.symm h]
    · by_cases hq : k = q
      · subst hq
        simp [appendRow, lookupFile, hk]
      · simp [appendRow, lookupFile, hk, hq, ih]

theorem lookupFile_appendRows_self {α : Type} (p : List Char) :
    ∀ (rows : List α) (files), rows ≠ [] →
      lookupFile (appendRows files p rows) p =
        some ((lookupFile files p).getD [] ++ rows) := by
  intro rows
  induction rows with
  | nil => intro files h; exact absurd rfl h
  | cons r rest ih =>
    intro files _
    show lookupFile (appendRows (appendRow files p r) p rest) p = _
    by_cases hrest : rest = []
    · subst hrest
      show lookupFile (appendRow files p r) p = _
      rw [lookupFile_appendRow_self]
    · rw [ih (appendRow files p r) hrest, lookupFile_appendRow_self]
      simp

theorem lookupFile_appendRows_ne {α : Type} {p q : List Char} (h : q ≠ p) :
    ∀ (rows : List α) (files),
      lookupFile (appendRows files p rows) q = lookupFile files q := by
  intro rows
  induction rows with
  | nil => intro files; rfl
  | cons r rest ih =>
    intro files
    show lookupFile (appendRows (appendRow files p r) p rest) q = _
    rw [ih (appendRow files p r), lookupFile_appendRow_ne files r h]

/-- While the rendered path stays put at the current path, every write
lands in that one file. -/
theorem rotWriteAll_same {α : Type} (render : ℚ → List Char) (p : List Char) :
    ∀ (ws : List (ℚ × α)) (dirs : List (List Char))
      (files : List (List Char × List α)),
      (∀ w ∈ ws, render w.1 = p) →
      rotWriteAll render ⟨dirs, files, some p⟩ ws =
        .ok ⟨dirs, appendRows files p (ws.map Prod.snd), some p⟩ := by
  intro ws
  induction ws with
  | nil => intro dirs files _; rfl
  | cons w rest ih =>
    intro dirs files hws
    obtain ⟨t, r⟩ := w
    have hp : render t = p := hws (t, r) (by simp)
    have h1 : rotWrite render ⟨dirs, files, some p⟩ t r =
        .ok ⟨dirs, appendRow files p r, some p⟩ := by
      rw [rotWrite, hp, if_pos rfl]
    rw [rotWriteAll_cons_ok h1,
      ih dirs (appendRow files p r) (fun w hw => hws w (List.mem_cons_of_mem _ hw))]
    rfl

/-- One phase: a nonempty run of writes that all render to one path `p`
succeeds — provided `p` is already current, or its directory is empty or
already exists — and appends exactly the run's rows to `p`'s file. -/
theorem rotPhase {α : Type} (render : ℚ → List Char) (p : List Char)
    (ws : List (ℚ × α)) (dirs : List (List Char))
    (files : List (List Char × List α)) (cur : Option (List Char))
    (hne : ws ≠ []) (hws : ∀ w ∈ ws, render w.1 = p)
    (hcond : cur = some p ∨ dirnameChars p = [] ∨ dirnameChars p ∈ dirs) :
    rotWriteAll render ⟨dirs, files, cur⟩ ws =
      .ok ⟨dirs, appendRows files p (ws.map Prod.snd), some p⟩ := by
  cases ws with
  | nil => exact absurd rfl hne
  | cons w rest =>
    obtain ⟨t, r⟩ := w
    have hp : render t = p := hws (t, r) (by simp)
    have h1 : rotWrite render ⟨dirs, files, cur⟩ t r =
        .ok ⟨dirs, appendRow files p r, some p⟩ := by
      by_cases hcur : cur = some p
      · subst hcur
        rw [rotWrite, hp, if_pos rfl]
      · rcases hcond with hc | hc
        · exact absurd hc hcur
        · rw [rotWrite, hp, if_neg hcur,
            if_neg (fun hcontra => hc.elim (fun h2 => hcontra.1 h2) (fun h2 => hcontra.2 h2))]
    rw [rotWriteAll_cons_ok h1,
      rotWriteAll_same render p rest dirs (appendRow files p r)
        (fun w hw => hws w (List.mem_cons_of_mem _ hw))]
    rfl

/-- The pattern of the counterexample: the rendered path moves from
directory `a` to directory `b` at the date boundary (as
`out_%Y%m%d/bars.ndjson` would). -/
def renderCe : ℚ → List Char :=
  fun t => if t = 0 then "a/x.ndjson".toList else "b/x.ndjson".toList

/-- **C8 counterexample**: with a pattern whose directory itself carries
the date, `__init__` creates only the first day's directory; the first
write after the boundary renders a path in a directory nobody created, and
the append-mode open raises `FileNotFoundError` instead of creating the
parent directory — the claimed "parent directory of the new path is
created if absent" does not happen on write. -/
theorem c8_counterexample :
    rotWriteAll renderCe (rotInit renderCe 0 []) [((0 : ℚ), (0 : Nat)), ((1 : ℚ), 1)] =
      .error "FileNotFoundError" ∧
    dirnameChars (renderCe 1) ∉ (rotInit (α := Nat) renderCe 0 []).dirs := by
  decide

/-- **C8** (amended): on every write, if the rendered path differs from the
current one, the old handle is closed and a new append-mode handle is
opened on the new path — but the parent directory is NOT created on write;
only `__init__` creates the directory of the initially rendered path.
Provided each phase's path has an empty or already-existing parent
directory, writes before and after a boundary crossing land in two
distinct files, each holding exactly the rows written while its path was
active. -/
theorem c8_two_phase {α : Type} (render : ℚ → List Char) (dirs0 : List (List Char))
    (wsA wsB : List (ℚ × α)) (pA pB : List Char)
    (hra : ∀ w ∈ wsA, render w.1 = pA) (hrb : ∀ w ∈ wsB, render w.1 = pB)
    (hAne : wsA ≠ []) (hBne : wsB ≠ []) (hpne : pA ≠ pB)
    (hdA : dirnameChars pA = [] ∨ dirnameChars pA ∈ dirs0)
    (hdB : dirnameChars pB = [] ∨ dirnameChars pB ∈ dirs0) :
    ∃ sys' : RotSys α,
      rotWriteAll render ⟨dirs0, [], none⟩ (wsA ++ wsB) = .ok sys' ∧
      lookupFile sys'.files pA = some (wsA.map Prod.snd) ∧
      lookupFile sys'.files pB = some (wsB.map Prod.snd) ∧
      sys'.current = some pB := by
  have h1 := rotPhase render pA wsA dirs0 [] none hAne hra (Or.inr hdA)
  have h2 := rotPhase render pB wsB dirs0 (appendRows [] pA (wsA.map Prod.snd))
    (some pA) hBne hrb (Or.inr hdB)
  refine ⟨⟨dirs0,
      appendRows (appendRows [] pA (wsA.map Prod.snd)) pB (wsB.map Prod.snd),
      some pB⟩,
    (rotWriteAll_append_ok wsA _ _ wsB h1).trans h2, ?_, ?_, rfl⟩
  · rw [lookupFile_appendRows_ne hpne,
      lookupFile_appendRows_self pA (wsA.map Prod.snd) [] (by simpa using hAne)]
    rfl
  · rw [lookupFile_appendRows_self pB (wsB.map Prod.snd) _ (by simpa using hBne),
      lookupFile_appendRows_ne (Ne.symm hpne)]
    rfl

/-- A boundary-crossing pattern whose rendered paths live in the working
directory (empty dirname), as `bars_%Y%m%d.ndjson` would render. -/
def renderW : ℚ → List Char :=
  fun t => if t = 0 then "x.ndjson".toList else "y.ndjson".toList

theorem c8_two_phase_witness :
    ∃ sys' : RotSys Nat,
      rotWriteAll renderW ⟨[], [], none⟩ [((0 : ℚ), 7), ((1 : ℚ), 8)] = .ok sys' ∧
      lookupFile sys'.files ("x.ndjson".toList) = some [7] ∧
      lookupFile sys'.files ("y.ndjson".toList) = some [8] ∧
      sys'.current = some ("y.ndjson".toList) :=
  c8_two_phase renderW [] [((0 : ℚ), 7)] [((1 : ℚ), 8)]
    ("x.ndjson".toList) ("y.ndjson".toList)
    (by decide) (by decide) (by decide) (by decide) (by decide)
    (by decide) (by decide)

/-! ## The ingestion queue (`src/bar_pipeline.py` 291–332, 380)

`serve` builds `asyncio.Queue(maxsize=max_queue)`; the CLI default for
`--max-queue` is 5000 but any integer is accepted.  `asyncio.Queue`
semantics: with `maxsize <= 0` the queue is unbounded; with a positive
`maxsize`, `await queue.put(row)` suspends the producer while the queue is
full (it never raises and never discards the row).  The queue's evolution
is the reflexive-transitive closure of `QStep`: a `put` appends one row
and is enabled exactly under asyncio's capacity test, a `get` removes the
front row. -/

/-- `argparse` default of `--max-queue`. -/
def maxQueueDefault : Int := 5000

/-- One queue transition of `asyncio.Queue(maxsize=C)`. -/
inductive QStep (α : Type) (C : Int) : List α → List α → Prop where
  | put (q : List α) (r : α) (h : C ≤ 0 ∨ (q.length : Int) < C) :
      QStep α C q (q ++ [r])
  | get (r : α) (q : List α) : QStep α C (r :: q) q

/-- The queue states reachable from the empty queue `serve` starts with. -/
def QReach (α : Type) (C : Int) (q : List α) : Prop :=
  Relation.ReflTransGen (QStep α C) [] q

/-- **C5 counterexample**: `--max-queue 0` (an accepted configuration)
makes the queue unbounded — `asyncio.Queue(maxsize=0)` never blocks a
`put` — so a state exceeding the configured capacity is reachable and no
capacity bound holds. -/
theorem c5_counterexample :
    QReach Unit 0 [()] ∧ ¬ ((([()] : List Unit).length : Int) ≤ 0) := by
  constructor
  · exact Relation.ReflTransGen.single (QStep.put [] () (Or.inl le_rfl))
  · decide

/-- **C5** (amended): the `--max-queue` default is 5000, and for every
POSITIVE capacity `C` the queue never holds more than `C` rows in any
reachable state; a `put` is enabled exactly under asyncio's capacity test
— in particular, with `0 < C` a producer facing a full queue has no
enabled `put`: `await queue.put` blocks it rather than dropping the row
(when a `put` fires, the row is appended, not discarded).  For `C ≤ 0`
(also accepted by the CLI) the queue is unbounded. -/
theorem c5_bounded_queue :
    maxQueueDefault = 5000 ∧
    (∀ (α : Type) (C : Int), 0 < C →
      ∀ q : List α, QReach α C q → (q.length : Int) ≤ C) ∧
    (∀ (α : Type) (C : Int) (q : List α) (r : α),
      QStep α C q (q ++ [r]) ↔ (C ≤ 0 ∨ (q.length : Int) < C)) := by
  refine ⟨rfl, ?_, ?_⟩
  · intro α C hC q hreach
    induction hreach with
    | refl => simp; omega
    | tail hsteps hstep ih =>
      cases hstep with
      | put q r h =>
        rcases h with h | h
        · omega
        · simp only [List.length_append, List.length_singleton]
          push_cast
          omega
      | get r q =>
        simp only [List.length_cons] at ih
        push_cast at ih ⊢
        omega
  · intro α C q r
    constructor
    · intro h
      generalize hq2 : q ++ [r] = q2 at h
      cases h with
      | put q3 r2 h2 => exact h2
      | get r2 q3 =>
        have := congrArg List.length hq2
        simp only [List.length_append, List.length_cons, List.length_singleton] at this
        omega
    · intro h
      exact QStep.put q r h

/-! ## `Metrics` and the per-line accounting (`src/bar_pipeline.py` 261–330)

`handle` bumps `received` for every line read, then parses: a dropped line
bumps `dropped`, a parsed one bumps `parsed`.  When `_parse_line` raises
(the unguarded `utcfromtimestamp` path), the exception unwinds past the
bumps into `handle`'s `except Exception` clause: `received` was already
incremented, neither `parsed` nor `dropped` is, and the read loop ends for
that connection.  `runHandler` plays a connection's lines through this
loop. -/

structure Metrics where
  received : Nat
  parsed : Nat
  dropped : Nat
deriving DecidableEq

def bump_recv (m : Metrics) : Metrics :=
  { m with received := m.received + 1 }

def bump_parsed (m : Metrics) : Metrics :=
  { m with parsed := m.parsed + 1 }

def bump_dropped (m : Metrics) : Metrics :=
  { m with dropped := m.dropped + 1 }

/-- The body of `handle`'s read loop over a connection's lines: bump
`received`, parse, then bump `dropped` or `parsed` — unless the parse
raises, which aborts the loop after the `received` bump. -/
def runHandler (m : Metrics) : List Line → Metrics
  | [] => m
  | l :: ls =>
    match _parse_line l with
    | .error _ => bump_recv m
    | .ok none => runHandler (bump_dropped (bump_recv m)) ls
    | .ok (some _) => runHandler (bump_parsed (bump_recv m)) ls

/-- **C10 counterexample**: one line whose timestamp predates year 1 makes
`_parse_line` raise `OverflowError` between the `received` bump and the
`parsed`/`dropped` bumps; after the handler has finished with the line
(the connection died on it), `received = 1` but `parsed + dropped = 0`. -/
theorem c10_counterexample :
    runHandler ⟨0, 0, 0⟩ [.json [("timestamp", .num (-62135596801)),
        ("symbol", .str "NQ"), ("open", .num 2), ("high", .num 2),
        ("low", .num 2), ("close", .num 2), ("volume", .num 2)]] =
      ⟨1, 0, 0⟩ ∧
    ¬ (1 = 0 + (0 : Nat)) := by
  constructor
  · decide
  · decide

/-- **C10** (amended): as long as no line makes `_parse_line` raise, the
invariant `received = parsed + dropped` holds after every fully processed
line, and each line moves the counters by exactly one `received` plus
exactly one of `parsed`/`dropped` (never decreasing or resetting any); a
raising line increments `received` alone, breaking the invariant. -/
theorem c10_metrics_invariant :
    (∀ (lines : List Line) (m : Metrics),
      (∀ l ∈ lines, ∀ e, _parse_line l ≠ .error e) →
      m.received = m.parsed + m.dropped →
      ∀ k, (runHandler m (lines.take k)).received =
        (runHandler m (lines.take k)).parsed +
        (runHandler m (lines.take k)).dropped) ∧
    (∀ (m : Metrics) (l : Line) (r : Bar), _parse_line l = .ok (some r) →
      ∀ ls, runHandler m (l :: ls) =
        runHandler ⟨m.received + 1, m.parsed + 1, m.dropped⟩ ls) ∧
    (∀ (m : Metrics) (l : Line), _parse_line l = .ok none →
      ∀ ls, runHandler m (l :: ls) =
        runHandler ⟨m.received + 1, m.parsed, m.dropped + 1⟩ ls) ∧
    (∀ (m : Metrics) (l : Line) (e : String), _parse_line l = .error e →
      ∀ ls, runHandler m (l :: ls) = ⟨m.received + 1, m.parsed, m.dropped⟩) := by
  refine ⟨?_, ?_, ?_, ?_⟩
  · intro lines
    induction lines with
    | nil =>
      intro m _ hm k
      simpa [runHandler] using hm
    | cons l ls ih =>
      intro m hsafe hm k
      cases k with
      | zero => simpa [runHandler] using hm
      | succ k2 =>
        rw [List.take_succ_cons]
        cases hp : _parse_line l with
        | error e => exact absurd hp (hsafe l (by simp) e)
        | ok o =>
          cases o with
          | none =>
            show (runHandler m (l :: ls.take k2)).received = _
            rw [show runHandler m (l :: ls.take k2) =
                runHandler (bump_dropped (bump_recv m)) (ls.take k2) by
              simp only [runHandler]; rw [hp]]
            exact ih (bump_dropped (bump_recv m))
              (fun l2 hl2 => hsafe l2 (List.mem_cons_of_mem _ hl2))
              (by simp [bump_dropped, bump_recv]; omega) k2
          | some r =>
            show (runHandler m (l :: ls.take k2)).received = _
            rw [show runHandler m (l :: ls.take k2) =
                runHandler (bump_parsed (bump_recv m)) (ls.take k2) by
              simp only [runHandler]; rw [hp]]
            exact ih (bump_parsed (bump_recv m))
              (fun l2 hl2 => hsafe l2 (List.mem_cons_of_mem _ hl2))
              (by simp [bump_parsed, bump_recv]; omega) k2
  · intro m l r hp ls
    simp only [runHandler]
    rw [hp]
    rfl
  · intro m l hp ls
    simp only [runHandler]
    rw [hp]
    rfl
  · intro m l e hp ls
    simp only [runHandler]
    rw [hp]
    rfl
